import Mathlib

/- Verification development for the minesweeper constraint-propagation engine
(`1_Knowledge/minesweeper/minesweeper.py`).

Modelling conventions:
* Python `set` values of cells are modelled as duplicate-free lists kept in
  insertion order (`insertC` is `set.add`); all operations the engine performs
  on them are order-insensitive, so any fixed iteration order is a faithful
  refinement of Python's unspecified hash order.
* Python `Sentence` objects are mutable and aliased (the same object is
  reachable from the knowledge list and from local variables); we model the
  object store explicitly: `heap` maps a numeric object id to the current
  `Sentence` value, and `knowledge` is the list of ids.  An object that is
  removed from `knowledge` keeps its last value in `heap`, exactly as a Python
  object outlives its removal from a list.
* Python integers are `Int` (counts can go negative in the source).
* The unbounded recursion of `reason_about_new_knowledge` is modelled with an
  explicit fuel parameter; `none` means the fuel was exhausted. -/

abbrev Cell := Int × Int

/-- Python `set.add` on a duplicate-free list kept in insertion order. -/
def insertC (c : Cell) (l : List Cell) : List Cell :=
  if c ∈ l then l else l ++ [c]

/-- Python `set.union`-style accumulation: add every member of `r` to `l`. -/
def unionC (l r : List Cell) : List Cell :=
  r.foldl (fun acc c => insertC c acc) l

/-- `a` is a subset of `b` (Python `b.issuperset(a)`). -/
def subsetC (a b : List Cell) : Bool :=
  a.all (fun c => decide (c ∈ b))

/-- Python `==` on sets: extensional equality. -/
def setEqC (a b : List Cell) : Bool :=
  subsetC a b && subsetC b a

/-- `Sentence(cells, count)`: "exactly `count` of `cells` are mines". -/
structure Sentence where
  cells : List Cell
  count : Int
deriving DecidableEq, Repr

/-- `Sentence.known_mines`: all cells if `count == len(cells)`, else empty. -/
def Sentence.known_mines (s : Sentence) : List Cell :=
  if s.count = (s.cells.length : Int) then s.cells else []

/-- `Sentence.known_safes`: all cells if `count == 0`, else empty. -/
def Sentence.known_safes (s : Sentence) : List Cell :=
  if s.count = 0 then s.cells else []

/-- `Sentence.mark_mine`: remove the cell and decrement the count when present. -/
def Sentence.mark_mine (s : Sentence) (cell : Cell) : Sentence :=
  if cell ∈ s.cells then
    { cells := s.cells.filter (fun c => decide (c ≠ cell)), count := s.count - 1 }
  else s

/-- `Sentence.mark_safe`: remove the cell, count unchanged, when present. -/
def Sentence.mark_safe (s : Sentence) (cell : Cell) : Sentence :=
  if cell ∈ s.cells then
    { cells := s.cells.filter (fun c => decide (c ≠ cell)), count := s.count }
  else s

/-- State of a `MinesweeperAI` object.  `heap`/`next_id` model Python's object
store for `Sentence` objects; `knowledge` holds the ids of the sentences
currently in `self.knowledge`. -/
structure MinesweeperAI where
  height : Int
  width : Int
  moves_made : List Cell
  all_moves : List Cell
  mines : List Cell
  safes : List Cell
  heap : List (Nat × Sentence)
  knowledge : List Nat
  next_id : Nat
deriving DecidableEq, Repr

/-- Dereference a sentence object id (defaults to an empty sentence; every id
the engine ever uses is present in the heap). -/
def MinesweeperAI.lookupS (st : MinesweeperAI) (id : Nat) : Sentence :=
  match st.heap.find? (fun p => p.1 == id) with
  | some p => p.2
  | none => ⟨[], 0⟩

/-- In-place mutation of the sentence object `id`. -/
def updateHeap (h : List (Nat × Sentence)) (id : Nat) (f : Sentence → Sentence) :
    List (Nat × Sentence) :=
  h.map (fun p => if p.1 = id then (p.1, f p.2) else p)

/-- `MinesweeperAI.mark_mine`: add to `self.mines`, then broadcast
`Sentence.mark_mine` to every sentence in `self.knowledge`. -/
def MinesweeperAI.mark_mine (st : MinesweeperAI) (cell : Cell) : MinesweeperAI :=
  let st := { st with mines := insertC cell st.mines }
  { st with
    heap := st.knowledge.foldl (fun h id => updateHeap h id (fun s => s.mark_mine cell)) st.heap }

/-- `MinesweeperAI.mark_safe`: add to `self.safes`, then broadcast
`Sentence.mark_safe` to every sentence in `self.knowledge`. -/
def MinesweeperAI.mark_safe (st : MinesweeperAI) (cell : Cell) : MinesweeperAI :=
  let st := { st with safes := insertC cell st.safes }
  { st with
    heap := st.knowledge.foldl (fun h id => updateHeap h id (fun s => s.mark_safe cell)) st.heap }

/-- `clean_up_empty_knowledge`: drop every sentence whose cell set is empty
from the knowledge list (the objects themselves survive in the heap, as in
Python). -/
def MinesweeperAI.clean_up_empty_knowledge (st : MinesweeperAI) : MinesweeperAI :=
  { st with knowledge := st.knowledge.filter (fun id => decide ((st.lookupS id).cells ≠ [])) }

/-- `get_unknown_neighbours`: in-bounds cells of the 3x3 box around `cell`
(the cell itself included by the source's loops) that are not in `self.safes`.
The candidate coordinates are pairwise distinct, so Python's `set.add`
accumulation equals this duplicate-free list. -/
def MinesweeperAI.get_unknown_neighbours (st : MinesweeperAI) (cell : Cell) : List Cell :=
  (([cell.1 - 1, cell.1, cell.1 + 1].filter
      (fun i => decide (0 ≤ i ∧ i < st.height))).flatMap
    (fun i =>
      ([cell.2 - 1, cell.2, cell.2 + 1].filter
          (fun j => decide (0 ≤ j ∧ j < st.width))).map (fun j => (i, j)))).filter
    (fun c => decide (c ∉ st.safes))

/-- `calculate_all_moves`: every cell of the grid. -/
def calculate_all_moves (height width : Int) : List Cell :=
  ((List.range height.toNat).flatMap
    (fun i => (List.range width.toNat).map (fun j => ((i : Int), (j : Int)))))

/-- `MinesweeperAI.__init__`. -/
def MinesweeperAI.init (height width : Int) : MinesweeperAI :=
  { height := height
    width := width
    moves_made := []
    all_moves := calculate_all_moves height width
    mines := []
    safes := []
    heap := []
    knowledge := []
    next_id := 0 }

/-- One execution of the `while added_knowledge` loop body of
`reason_about_new_knowledge`, iterated until the sizes of `self.safes` and
`self.mines` stop changing.  Fuel-limited. -/
def reason_while : Nat → MinesweeperAI → Option MinesweeperAI
  | 0, _ => none
  | fuel + 1, st =>
    let st := st.clean_up_empty_knowledge
    let known_mines :=
      st.knowledge.foldl (fun acc id => unionC acc (st.lookupS id).known_mines) []
    let known_safes :=
      st.knowledge.foldl (fun acc id => unionC acc (st.lookupS id).known_safes) []
    let previous_safes_count := st.safes.length
    let previous_mines_count := st.mines.length
    let st := known_mines.foldl (fun s c => s.mark_mine c) st
    let st := known_safes.foldl (fun s c => s.mark_safe c) st
    if st.safes.length ≠ previous_safes_count ∨ st.mines.length ≠ previous_mines_count then
      reason_while fuel st
    else
      some st

/-- The two recursion modes of `reason_about_new_knowledge`: the call itself
(`main`), and the `for existing_knowledge in self.knowledge` scan at index `i`
(`scan`), which matches Python's index-based iteration over a list that is
being mutated while it is traversed. -/
inductive ReasonCall where
  | main (st : MinesweeperAI) (nkid : Nat)
  | scan (st : MinesweeperAI) (nkid : Nat) (i : Nat)

/-- Fuel-limited interpreter for `reason_about_new_knowledge`. -/
def reasonAux : Nat → ReasonCall → Option MinesweeperAI
  | 0, _ => none
  | fuel + 1, .main st nkid =>
    if (st.lookupS nkid).cells = [] then some st
    else
      match reason_while (fuel + 1) st with
      | none => none
      | some st1 => reasonAux fuel (.scan st1 nkid 0)
  | fuel + 1, .scan st nkid i =>
    match st.knowledge[i]? with
    | none => some st
    | some eid =>
      let e := st.lookupS eid
      if e.cells = [] then
        reasonAux fuel (.scan st.clean_up_empty_knowledge nkid (i + 1))
      else
        let nk := st.lookupS nkid
        if subsetC nk.cells e.cells && ! setEqC e.cells nk.cells then
          let e' : Sentence :=
            ⟨e.cells.filter (fun c => decide (c ∉ nk.cells)), e.count - nk.count⟩
          let st' := { st with heap := updateHeap st.heap eid (fun _ => e') }
          match reasonAux fuel (.main st' eid) with
          | none => none
          | some st'' => reasonAux fuel (.scan st'' nkid (i + 1))
        else
          reasonAux fuel (.scan st nkid (i + 1))

/-- `reason_about_new_knowledge(self, new_knowledge)` (fuel-limited). -/
def MinesweeperAI.reason_about_new_knowledge (fuel : Nat) (st : MinesweeperAI) (nkid : Nat) :
    Option MinesweeperAI :=
  reasonAux fuel (.main st nkid)

/-- `add_knowledge(self, cell, count)` (fuel-limited propagation). -/
def MinesweeperAI.add_knowledge (fuel : Nat) (st : MinesweeperAI) (cell : Cell)
    (count : Int) : Option MinesweeperAI :=
  let st := { st with moves_made := insertC cell st.moves_made }
  let st := st.mark_safe cell
  let unknown_neighbours := st.get_unknown_neighbours cell
  let nid := st.next_id
  let st := { st with
    heap := st.heap ++ [(nid, Sentence.mk unknown_neighbours count)]
    knowledge := st.knowledge ++ [nid]
    next_id := nid + 1 }
  let mines_in_new_knowledge := unknown_neighbours.filter (fun c => decide (c ∈ st.mines))
  let st := mines_in_new_knowledge.foldl (fun s c => s.mark_mine c) st
  st.reason_about_new_knowledge fuel nid

/-- `make_safe_move`: first known safe cell not already played. -/
def MinesweeperAI.make_safe_move (st : MinesweeperAI) : Option Cell :=
  st.safes.find? (fun c => decide (c ∉ st.moves_made))

/-- `make_random_move`: first cell of `self.all_moves - self.moves_made` that
is not a known mine.  The source never consults the `random` module here. -/
def MinesweeperAI.make_random_move (st : MinesweeperAI) : Option Cell :=
  (st.all_moves.filter (fun m => decide (m ∉ st.moves_made))).find?
    (fun m => decide (m ∉ st.mines))

/-- `Minesweeper.nearby_mines`: number of true mines in the in-bounds 3x3 box
around `cell`, the cell itself excluded.  The board is modelled by its mine
indicator. -/
def nearby_mines (board : Cell → Bool) (height width : Int) (cell : Cell) : Int :=
  ((([cell.1 - 1, cell.1, cell.1 + 1].flatMap
      (fun i => [cell.2 - 1, cell.2, cell.2 + 1].map (fun j => (i, j)))).filter
    (fun c => decide (c ≠ cell ∧ 0 ≤ c.1 ∧ c.1 < height ∧ 0 ≤ c.2 ∧ c.2 < width
      ∧ board c = true))).length : Int)

/-- Run a sequence of `add_knowledge` calls. -/
def runTrace (fuel : Nat) (st : MinesweeperAI) : List (Cell × Int) → Option MinesweeperAI
  | [] => some st
  | (c, n) :: rest =>
    match st.add_knowledge fuel c n with
    | none => none
    | some st' => runTrace fuel st' rest

/-! ### Basic facts about the set-as-list primitives -/

lemma mem_insertC_of_mem {a c : Cell} {l : List Cell} (h : a ∈ l) : a ∈ insertC c l := by
  unfold insertC
  split
  · exact h
  · exact List.mem_append.mpr (Or.inl h)

lemma mem_insertC_self (c : Cell) (l : List Cell) : c ∈ insertC c l := by
  unfold insertC
  split
  · assumption
  · exact List.mem_append.mpr (Or.inr (List.mem_singleton.mpr rfl))

lemma mem_insertC {a c : Cell} {l : List Cell} : a ∈ insertC c l ↔ a = c ∨ a ∈ l := by
  unfold insertC
  split
  · rename_i h
    constructor
    · exact Or.inr
    · rintro (rfl | ha)
      · exact h
      · exact ha
  · rw [List.mem_append, List.mem_singleton, or_comm]

/-! ### Monotone state growth through the propagation engine

`Grows st st'` collects the facts that every primitive step of
`reason_about_new_knowledge` preserves: `safes` and `mines` only gain members,
and the fields `moves_made`, `height`, `width`, `all_moves` are untouched. -/

def Grows (st st' : MinesweeperAI) : Prop :=
  (∀ c, c ∈ st.safes → c ∈ st'.safes) ∧
  (∀ c, c ∈ st.mines → c ∈ st'.mines) ∧
  st'.moves_made = st.moves_made ∧
  st'.height = st.height ∧ st'.width = st.width ∧ st'.all_moves = st.all_moves

lemma grows_refl (st : MinesweeperAI) : Grows st st :=
  ⟨fun _ h => h, fun _ h => h, rfl, rfl, rfl, rfl⟩

lemma grows_trans {a b c : MinesweeperAI} (h1 : Grows a b) (h2 : Grows b c) : Grows a c :=
  ⟨fun x hx => h2.1 x (h1.1 x hx), fun x hx => h2.2.1 x (h1.2.1 x hx),
    h2.2.2.1.trans h1.2.2.1, h2.2.2.2.1.trans h1.2.2.2.1,
    h2.2.2.2.2.1.trans h1.2.2.2.2.1, h2.2.2.2.2.2.trans h1.2.2.2.2.2⟩

lemma grows_mark_mine (st : MinesweeperAI) (c : Cell) : Grows st (st.mark_mine c) :=
  ⟨fun _ h => h, fun _ h => mem_insertC_of_mem h, rfl, rfl, rfl, rfl⟩

lemma grows_mark_safe (st : MinesweeperAI) (c : Cell) : Grows st (st.mark_safe c) :=
  ⟨fun _ h => mem_insertC_of_mem h, fun _ h => h, rfl, rfl, rfl, rfl⟩

lemma grows_clean_up (st : MinesweeperAI) : Grows st st.clean_up_empty_knowledge :=
  ⟨fun _ h => h, fun _ h => h, rfl, rfl, rfl, rfl⟩

lemma grows_foldl {α : Type} {f : MinesweeperAI → α → MinesweeperAI}
    (hf : ∀ st a, Grows st (f st a)) :
    ∀ (l : List α) (st : MinesweeperAI), Grows st (l.foldl f st)
  | [], st => grows_refl st
  | a :: l, st => grows_trans (hf st a) (grows_foldl hf l (f st a))

lemma grows_reason_while :
    ∀ (fuel : Nat) (st st' : MinesweeperAI), reason_while fuel st = some st' → Grows st st' := by
  intro fuel
  induction fuel with
  | zero => intro st st' h; simp [reason_while] at h
  | succ f ih =>
    intro st st' h
    rw [reason_while] at h
    set st1 := st.clean_up_empty_knowledge with hst1
    have hgrow : Grows st ((st1.knowledge.foldl
        (fun acc id => unionC acc (st1.lookupS id).known_safes) []).foldl
          (fun s c => s.mark_safe c)
          ((st1.knowledge.foldl
            (fun acc id => unionC acc (st1.lookupS id).known_mines) []).foldl
              (fun s c => s.mark_mine c) st1)) :=
      grows_trans (grows_clean_up st)
        (grows_trans (grows_foldl grows_mark_mine _ _) (grows_foldl grows_mark_safe _ _))
    split at h
    · exact grows_trans hgrow (ih _ _ h)
    · cases h
      exact hgrow

def ReasonCall.state : ReasonCall → MinesweeperAI
  | .main st _ => st
  | .scan st _ _ => st

lemma grows_reasonAux :
    ∀ (fuel : Nat) (call : ReasonCall) (st' : MinesweeperAI),
      reasonAux fuel call = some st' → Grows call.state st' := by
  intro fuel
  induction fuel with
  | zero => intro call st' h; simp [reasonAux] at h
  | succ f ih =>
    intro call st' h
    cases call with
    | main st nkid =>
      simp only [reasonAux] at h
      split at h
      · cases h; exact grows_refl _
      · split at h
        · exact absurd h (by simp)
        · rename_i st1 hwhile
          exact grows_trans (grows_reason_while _ _ _ hwhile) (ih _ _ h)
    | scan st nkid i =>
      simp only [reasonAux] at h
      split at h
      · cases h; exact grows_refl _
      · rename_i eid heid
        split at h
        · exact grows_trans (grows_clean_up st) (ih _ _ h)
        · split at h
          · split at h
            · exact absurd h (by simp)
            · rename_i st'' hmain
              have g1 : Grows st { st with
                  heap := updateHeap st.heap eid
                    (fun _ => ⟨(st.lookupS eid).cells.filter
                        (fun c => decide (c ∉ (st.lookupS nkid).cells)),
                      (st.lookupS eid).count - (st.lookupS nkid).count⟩) } :=
                ⟨fun _ hx => hx, fun _ hx => hx, rfl, rfl, rfl, rfl⟩
              exact grows_trans g1 (grows_trans (ih _ _ hmain) (ih _ _ h))
          · exact ih (.scan st nkid (i + 1)) _ h

/-- Combined effect of one `add_knowledge` call on the simple fields: `safes`
and `mines` only grow, `moves_made` gains exactly the observed cell, and the
observed cell ends up in `safes`. -/
lemma add_knowledge_effects (fuel : Nat) (st : MinesweeperAI) (cell : Cell)
    (count : Int) (st' : MinesweeperAI)
    (h : st.add_knowledge fuel cell count = some st') :
    (∀ c, c ∈ st.safes → c ∈ st'.safes) ∧ (∀ c, c ∈ st.mines → c ∈ st'.mines) ∧
    st'.moves_made = insertC cell st.moves_made ∧ cell ∈ st'.safes ∧
    st'.height = st.height ∧ st'.width = st.width ∧ st'.all_moves = st.all_moves := by
  simp only [MinesweeperAI.add_knowledge, MinesweeperAI.reason_about_new_knowledge] at h
  have hg := grows_reasonAux _ _ _ h
  obtain ⟨hsafe, hmine, hmoves, hh, hw, ha⟩ := hg
  have hfold := grows_foldl grows_mark_mine
    (((({ st with moves_made := insertC cell st.moves_made } :
        MinesweeperAI).mark_safe cell).get_unknown_neighbours cell).filter
      (fun c => decide (c ∈ (({ st with moves_made := insertC cell st.moves_made } :
        MinesweeperAI).mark_safe cell).mines)))
    { (({ st with moves_made := insertC cell st.moves_made } :
        MinesweeperAI).mark_safe cell) with
      heap := (({ st with moves_made := insertC cell st.moves_made } :
        MinesweeperAI).mark_safe cell).heap ++
        [((({ st with moves_made := insertC cell st.moves_made } :
          MinesweeperAI).mark_safe cell).next_id,
          Sentence.mk ((({ st with moves_made := insertC cell st.moves_made } :
            MinesweeperAI).mark_safe cell).get_unknown_neighbours cell) count)]
      knowledge := (({ st with moves_made := insertC cell st.moves_made } :
        MinesweeperAI).mark_safe cell).knowledge ++
        [(({ st with moves_made := insertC cell st.moves_made } :
          MinesweeperAI).mark_safe cell).next_id]
      next_id := (({ st with moves_made := insertC cell st.moves_made } :
        MinesweeperAI).mark_safe cell).next_id + 1 }
  refine ⟨fun c hc => hsafe c (hfold.1 c ?_), fun c hc => hmine c (hfold.2.1 c ?_),
    hmoves.trans (hfold.2.2.1.trans rfl), hsafe cell (hfold.1 cell ?_),
    hh.trans (hfold.2.2.2.1.trans rfl), hw.trans (hfold.2.2.2.2.1.trans rfl),
    ha.trans (hfold.2.2.2.2.2.trans rfl)⟩
  · exact mem_insertC_of_mem hc
  · exact hc
  · exact mem_insertC_self cell _

/-! ### Claim C9: monotonicity of `safes` and `mines` -/

/-- C9: across any `add_knowledge` (observe) call that returns, the sets of
known-safe and known-mine cells grow monotonically; every prior member is
still a member afterwards. -/
theorem observe_monotone_growth (fuel : Nat) (st : MinesweeperAI) (cell : Cell)
    (count : Int) (st' : MinesweeperAI)
    (h : st.add_knowledge fuel cell count = some st') :
    (∀ c, c ∈ st.safes → c ∈ st'.safes) ∧ (∀ c, c ∈ st.mines → c ∈ st'.mines) :=
  ⟨(add_knowledge_effects fuel st cell count st' h).1,
   (add_knowledge_effects fuel st cell count st' h).2.1⟩

def c9Start : MinesweeperAI :=
  { MinesweeperAI.init 2 2 with safes := [(9, 9)], mines := [(8, 8)] }

def c9End : MinesweeperAI :=
  (c9Start.add_knowledge 100 (0, 0) 1).getD (MinesweeperAI.init 2 2)

theorem observe_monotone_growth_witness :
    (9, 9) ∈ c9End.safes ∧ (8, 8) ∈ c9End.mines := by
  have h : c9Start.add_knowledge 100 (0, 0) 1 = some c9End := by decide
  exact ⟨(observe_monotone_growth 100 c9Start (0, 0) 1 c9End h).1 (9, 9) (by decide),
         (observe_monotone_growth 100 c9Start (0, 0) 1 c9End h).2 (8, 8) (by decide)⟩

/-! ### Claim C6: `add_knowledge` performs no validation -/

def c6OobState : MinesweeperAI :=
  ((MinesweeperAI.init 2 2).add_knowledge 100 (5, 5) 0).getD (MinesweeperAI.init 2 2)

def c6ReobserveState : MinesweeperAI :=
  (runTrace 100 (MinesweeperAI.init 2 2) [((0, 0), 0), ((0, 0), 0)]).getD (MinesweeperAI.init 2 2)

def c6OnceState : MinesweeperAI :=
  (runTrace 100 (MinesweeperAI.init 2 2) [((0, 0), 0)]).getD (MinesweeperAI.init 2 2)

/-- C6 counterexample: observing the out-of-bounds cell (5,5) on a fresh 2x2
agent is not rejected — the call returns normally and mutates the state (the
cell is recorded in `moves_made` and `safes`); likewise re-observing (0,0) a
second time returns normally and changes the state rather than leaving it
exactly as it was. -/
theorem invalid_call_counterexample :
    ((MinesweeperAI.init 2 2).add_knowledge 100 (5, 5) 0).isSome = true ∧
    (5, 5) ∈ c6OobState.moves_made ∧ (5, 5) ∈ c6OobState.safes ∧
    c6OobState ≠ MinesweeperAI.init 2 2 ∧
    (runTrace 100 (MinesweeperAI.init 2 2) [((0, 0), 0), ((0, 0), 0)]).isSome = true ∧
    c6ReobserveState ≠ c6OnceState := by decide

/-- C6 (amended): `add_knowledge` performs no validation at all.  For every
cell — previously observed or not, inside the grid or not — whenever the call
returns, the cell has been added to `moves_made` and to `safes`: the state is
mutated, never rejected. -/
theorem observe_accepts_any_cell (fuel : Nat) (st : MinesweeperAI) (cell : Cell)
    (count : Int) (st' : MinesweeperAI)
    (h : st.add_knowledge fuel cell count = some st') :
    cell ∈ st'.moves_made ∧ cell ∈ st'.safes := by
  have e := add_knowledge_effects fuel st cell count st' h
  refine ⟨?_, e.2.2.2.1⟩
  rw [e.2.2.1]
  exact mem_insertC_self cell st.moves_made

theorem observe_accepts_any_cell_witness :
    (5, 5) ∈ c6OobState.moves_made ∧ (5, 5) ∈ c6OobState.safes :=
  observe_accepts_any_cell 100 (MinesweeperAI.init 2 2) (5, 5) 0 c6OobState (by decide)

/-! ### Claim C8 / C10: `make_random_move` -/

/-- C8 counterexample: `make_random_move` involves no randomness and cannot be
a uniform draw.  On a fresh 2x2 agent every one of the four cells is eligible
(not visited, not a known mine), yet the function always returns (0,0) and in
particular never returns the eligible cell (0,1). -/
theorem make_random_move_not_uniform_counterexample :
    (MinesweeperAI.init 2 2).make_random_move = some (0, 0) ∧
    (0, 1) ∈ (MinesweeperAI.init 2 2).all_moves ∧
    (0, 1) ∉ (MinesweeperAI.init 2 2).moves_made ∧
    (0, 1) ∉ (MinesweeperAI.init 2 2).mines ∧
    (MinesweeperAI.init 2 2).make_random_move ≠ some (0, 1) := by decide

/-- C8 (amended): `make_random_move` deterministically returns the first cell
of `all_moves \ moves_made` that is not a known mine; it returns `none`
exactly when every unvisited grid cell is a known mine, and every returned
cell is an unvisited non-mine grid cell.  (It is a pure function of the state
and consumes no randomness.) -/
theorem make_random_move_membership (st : MinesweeperAI) :
    (st.make_random_move = none ↔
      ∀ c ∈ st.all_moves, c ∉ st.moves_made → c ∈ st.mines) ∧
    (∀ c, st.make_random_move = some c →
      c ∈ st.all_moves ∧ c ∉ st.moves_made ∧ c ∉ st.mines) := by
  constructor
  · unfold MinesweeperAI.make_random_move
    rw [List.find?_eq_none]
    constructor
    · intro H c hc hnm
      have := H c (List.mem_filter.mpr ⟨hc, by simpa using hnm⟩)
      simpa using this
    · intro H x hx
      rw [List.mem_filter] at hx
      simp only [decide_eq_true_eq] at hx
      simpa using H x hx.1 hx.2
  · intro c h
    unfold MinesweeperAI.make_random_move at h
    have hmem := List.mem_of_find?_eq_some h
    have hp := List.find?_some h
    rw [List.mem_filter] at hmem
    refine ⟨hmem.1, by simpa using hmem.2, by simpa using hp⟩

theorem make_random_move_membership_witness :
    (0, 0) ∈ (MinesweeperAI.init 2 2).all_moves ∧
    (0, 0) ∉ (MinesweeperAI.init 2 2).moves_made ∧
    (0, 0) ∉ (MinesweeperAI.init 2 2).mines :=
  (make_random_move_membership (MinesweeperAI.init 2 2)).2 (0, 0) (by decide)

/-- C10: `make_random_move` is a deterministic function of the knowledge-base
state: it reads no source of randomness, and two calls on states that agree
on the grid dimensions (with `all_moves` computed from them, as `__init__`
does), the visited set and the known-mine set return the same result. -/
theorem make_random_move_deterministic (s1 s2 : MinesweeperAI)
    (hh : s1.height = s2.height) (hw : s1.width = s2.width)
    (ha1 : s1.all_moves = calculate_all_moves s1.height s1.width)
    (ha2 : s2.all_moves = calculate_all_moves s2.height s2.width)
    (hm : s1.moves_made = s2.moves_made) (hmi : s1.mines = s2.mines) :
    s1.make_random_move = s2.make_random_move := by
  unfold MinesweeperAI.make_random_move
  rw [ha1, ha2, hh, hw, hm, hmi]

theorem make_random_move_deterministic_witness :
    ({ MinesweeperAI.init 2 2 with
        safes := [(0, 1)], knowledge := [7] } : MinesweeperAI).make_random_move =
      (MinesweeperAI.init 2 2).make_random_move :=
  make_random_move_deterministic _ _ rfl rfl rfl rfl rfl rfl

/-! ### Claim C1: count bounds — counterexample for arbitrary observations -/

def c1CounterState : MinesweeperAI :=
  (runTrace 100 (MinesweeperAI.init 2 2) [((0, 0), 5)]).getD (MinesweeperAI.init 2 2)

/-- C1 counterexample: `add_knowledge` accepts any reported count, so a single
observe call with a count that no mine placement could produce adds a
constraint with `count = 5 > 3 = |cells|`, which is still in the working set
when the call returns. -/
theorem count_bounds_counterexample :
    (runTrace 100 (MinesweeperAI.init 2 2) [((0, 0), 5)]).isSome = true ∧
    0 ∈ c1CounterState.knowledge ∧
    (c1CounterState.lookupS 0).count = 5 ∧
    ((c1CounterState.lookupS 0).cells.length : Int) = 3 := by decide

/-! ### Claim C2: disjointness — counterexample for arbitrary observations -/

def c2CounterState : MinesweeperAI :=
  (runTrace 100 (MinesweeperAI.init 2 2) [((0, 0), 3), ((1, 1), 0)]).getD (MinesweeperAI.init 2 2)

/-- C2 counterexample: an inconsistent pair of observations makes the engine
first mark (1,1) a mine (count-3 constraint on a 2x2 corner) and then, on
observing (1,1) itself, unconditionally mark it safe — after the second
`observe` returns, (1,1) is in both `safes` and `mines`. -/
theorem disjointness_counterexample :
    (runTrace 100 (MinesweeperAI.init 2 2) [((0, 0), 3), ((1, 1), 0)]).isSome = true ∧
    (1, 1) ∈ c2CounterState.safes ∧ (1, 1) ∈ c2CounterState.mines := by decide

/-! ### Claim C4: no contradiction detection -/

def c4ContraState : MinesweeperAI :=
  (runTrace 100 (MinesweeperAI.init 2 2) [((0, 0), 3), ((0, 1), 0)]).getD (MinesweeperAI.init 2 2)

/-- C4 counterexample: on an inconsistent pair of observations the propagation
places (0,1) in both `safes` and `mines` and derives a constraint with
negative count (-2), yet `observe` returns normally instead of failing. -/
theorem no_error_on_contradiction_counterexample :
    (runTrace 100 (MinesweeperAI.init 2 2) [((0, 0), 3), ((0, 1), 0)]).isSome = true ∧
    (0, 1) ∈ c4ContraState.safes ∧ (0, 1) ∈ c4ContraState.mines ∧
    1 ∈ c4ContraState.knowledge ∧
    (c4ContraState.lookupS 1).count = -2 ∧ (c4ContraState.lookupS 1).cells = [] := by decide

/-- C4 (amended): the code contains no contradiction check at all: feeding the
inconsistent observations ((0,0),3) then ((0,1),0) to a fresh 2x2 agent
returns normally with the silently corrupted state shown — (0,1) both safe and
mine, and an emptied constraint with count -2 left in the working set. -/
theorem contradiction_returns_normally :
    runTrace 100 (MinesweeperAI.init 2 2) [((0, 0), 3), ((0, 1), 0)] =
      some { height := 2, width := 2,
             moves_made := [(0, 0), (0, 1)],
             all_moves := [(0, 0), (0, 1), (1, 0), (1, 1)],
             mines := [(0, 1), (1, 0), (1, 1)],
             safes := [(0, 0), (0, 1)],
             heap := [(0, Sentence.mk [] 0), (1, Sentence.mk [] (-2))],
             knowledge := [1], next_id := 2 } := by decide

/-! ### Claim C5: scenario B -/

def c5State : MinesweeperAI :=
  (runTrace 100 (MinesweeperAI.init 2 2) [((0, 0), 1), ((0, 1), 1)]).getD (MinesweeperAI.init 2 2)

/-- C5 counterexample: on the 2x2 grid, after `observe((0,0),1)` and
`observe((0,1),1)` the engine has NOT marked (1,1) a mine and has NOT marked
(1,0) safe (and indeed no sound inference could: a mine at (1,0) satisfies
both observations as well). -/
theorem scenarioB_counterexample :
    (runTrace 100 (MinesweeperAI.init 2 2) [((0, 0), 1), ((0, 1), 1)]).isSome = true ∧
    (1, 1) ∉ c5State.mines ∧ (1, 0) ∉ c5State.safes := by decide

/-- C5 (amended): the actual outcome of scenario B.  `mark_safe((0,1))` is
broadcast into the first constraint before the second constraint is built, so
both constraints become `{(1,0),(1,1)} = 1`; the strict-superset resolution
rule therefore does not fire, no mine is identified, and only the two observed
cells are known safe. -/
theorem scenarioB_actual_outcome :
    runTrace 100 (MinesweeperAI.init 2 2) [((0, 0), 1), ((0, 1), 1)] =
      some { height := 2, width := 2,
             moves_made := [(0, 0), (0, 1)],
             all_moves := [(0, 0), (0, 1), (1, 0), (1, 1)],
             mines := [],
             safes := [(0, 0), (0, 1)],
             heap := [(0, Sentence.mk [(1, 0), (1, 1)] 1),
                      (1, Sentence.mk [(1, 0), (1, 1)] 1)],
             knowledge := [0, 1], next_id := 2 } := by decide

/-! ### Claim C3: discharge completeness fails on a consistent trace -/

def c3State : MinesweeperAI :=
  (runTrace 100 (MinesweeperAI.init 1 3) [((0, 1), 1), ((0, 0), 0)]).getD (MinesweeperAI.init 1 3)

/-- C3: evaluation at the failing input.  On a 1x3 grid with one mine at
(0,2), the consistent observations ((0,1),1) then ((0,0),0) (both counts are
the true `nearby_mines` values) leave the constraint `{(0,2)} = 1` — with
`count == |cells| > 0` — in the working set after `observe` returns, and
(0,2) is never marked a mine: the early return for an empty new sentence
skips the propagation fixed point entirely. -/
theorem discharge_incompleteness_on_consistent_trace :
    (runTrace 100 (MinesweeperAI.init 1 3) [((0, 1), 1), ((0, 0), 0)]).isSome = true ∧
    0 ∈ c3State.knowledge ∧
    (c3State.lookupS 0).cells = [(0, 2)] ∧
    (c3State.lookupS 0).count = 1 ∧
    (0, 2) ∉ c3State.mines ∧
    nearby_mines (fun c => decide (c = ((0 : Int), (2 : Int)))) 1 3 (0, 1) = 1 ∧
    nearby_mines (fun c => decide (c = ((0 : Int), (2 : Int)))) 1 3 (0, 0) = 0 ∧
    (fun c => decide (c = ((0 : Int), (2 : Int)))) (0, 1) = false ∧
    (fun c => decide (c = ((0 : Int), (2 : Int)))) (0, 0) = false := by decide

/-! ### Soundness with respect to a ground-truth mine placement

`M : Cell → Bool` is the mine indicator of the oracle's board.  A sentence is
*true* when its count is exactly the number of mines among its (duplicate
free) cells; `Sound M st` says every cell marked safe is truly safe, every
cell marked mine is truly a mine, and every sentence object ever created is
true.  Every primitive step of the engine preserves `Sound` as long as the
observations it is fed are truthful. -/

def TrueS (M : Cell → Bool) (s : Sentence) : Prop :=
  (s.cells.countP M : Int) = s.count ∧ s.cells.Nodup

def Sound (M : Cell → Bool) (st : MinesweeperAI) : Prop :=
  (∀ c ∈ st.safes, M c = false) ∧
  (∀ c ∈ st.mines, M c = true) ∧
  (∀ p ∈ st.heap, TrueS M p.2)

lemma trueS_default (M : Cell → Bool) : TrueS M ⟨[], 0⟩ := ⟨rfl, List.nodup_nil⟩

lemma lookupS_trueS {M : Cell → Bool} {st : MinesweeperAI}
    (h : ∀ p ∈ st.heap, TrueS M p.2) (id : Nat) : TrueS M (st.lookupS id) := by
  unfold MinesweeperAI.lookupS
  split
  · rename_i p hp
    exact h p (List.mem_of_find?_eq_some hp)
  · exact trueS_default M

lemma countP_eq_filter_ne_add {l : List Cell} {c : Cell} (hnd : l.Nodup) (hc : c ∈ l)
    (M : Cell → Bool) :
    l.countP M =
      (l.filter (fun x => decide (x ≠ c))).countP M + (if M c = true then 1 else 0) := by
  induction l with
  | nil => cases hc
  | cons a l ih =>
    rw [List.nodup_cons] at hnd
    rw [List.countP_cons, List.filter_cons]
    by_cases hca : a = c
    · subst hca
      have h1 : (decide (a ≠ a)) = false := by simp
      have hfl : List.filter (fun x => decide (x ≠ a)) l = l :=
        List.filter_eq_self.mpr (fun x hx => by
          simp only [ne_eq, decide_eq_true_eq]
          rintro rfl
          exact hnd.1 hx)
      rw [h1, if_neg (show ¬ (false = true) by decide), hfl]
    · have hcl : c ∈ l := by
        rcases List.mem_cons.mp hc with h1 | h1
        · exact absurd h1.symm hca
        · exact h1
      have h1 : (decide (a ≠ c)) = true := by simp [hca]
      rw [h1, if_pos rfl, List.countP_cons, ih hnd.2 hcl]
      omega

lemma trueS_mark_mine {M : Cell → Bool} {s : Sentence} {c : Cell}
    (h : TrueS M s) (hc : M c = true) : TrueS M (s.mark_mine c) := by
  obtain ⟨hcount, hnd⟩ := h
  unfold Sentence.mark_mine
  split
  · rename_i hmem
    have hcnt := countP_eq_filter_ne_add hnd hmem M
    rw [hc, if_pos rfl] at hcnt
    refine ⟨?_, hnd.filter _⟩
    show ((s.cells.filter (fun x => decide (x ≠ c))).countP M : Int) = s.count - 1
    omega
  · exact ⟨hcount, hnd⟩

lemma trueS_mark_safe {M : Cell → Bool} {s : Sentence} {c : Cell}
    (h : TrueS M s) (hc : M c = false) : TrueS M (s.mark_safe c) := by
  obtain ⟨hcount, hnd⟩ := h
  unfold Sentence.mark_safe
  split
  · rename_i hmem
    have hcnt := countP_eq_filter_ne_add hnd hmem M
    rw [hc, if_neg (by decide)] at hcnt
    refine ⟨?_, hnd.filter _⟩
    show ((s.cells.filter (fun x => decide (x ≠ c))).countP M : Int) = s.count
    omega
  · exact ⟨hcount, hnd⟩

lemma heap_trueS_updateHeap {M : Cell → Bool} {heap : List (Nat × Sentence)} {id : Nat}
    {f : Sentence → Sentence} (hf : ∀ s, TrueS M s → TrueS M (f s))
    (hh : ∀ p ∈ heap, TrueS M p.2) : ∀ p ∈ updateHeap heap id f, TrueS M p.2 := by
  intro p hp
  unfold updateHeap at hp
  rw [List.mem_map] at hp
  obtain ⟨q, hq, hpq⟩ := hp
  by_cases hid : q.1 = id
  · rw [if_pos hid] at hpq
    subst hpq
    exact hf q.2 (hh q hq)
  · rw [if_neg hid] at hpq
    subst hpq
    exact hh q hq

lemma heap_trueS_broadcast {M : Cell → Bool} {f : Sentence → Sentence}
    (hf : ∀ s, TrueS M s → TrueS M (f s)) :
    ∀ (ids : List Nat) (heap : List (Nat × Sentence)),
      (∀ p ∈ heap, TrueS M p.2) →
      ∀ p ∈ ids.foldl (fun h id => updateHeap h id f) heap, TrueS M p.2
  | [], _, hh => hh
  | id :: ids, heap, hh =>
    heap_trueS_broadcast hf ids (updateHeap heap id f) (heap_trueS_updateHeap hf hh)

lemma sound_mark_mine {M : Cell → Bool} {st : MinesweeperAI} {c : Cell}
    (h : Sound M st) (hc : M c = true) : Sound M (st.mark_mine c) := by
  obtain ⟨hsafe, hmine, hheap⟩ := h
  refine ⟨hsafe, ?_, ?_⟩
  · intro x hx
    rcases mem_insertC.mp hx with rfl | hx
    · exact hc
    · exact hmine x hx
  · exact heap_trueS_broadcast (fun s hs => trueS_mark_mine hs hc) st.knowledge st.heap hheap

lemma sound_mark_safe {M : Cell → Bool} {st : MinesweeperAI} {c : Cell}
    (h : Sound M st) (hc : M c = false) : Sound M (st.mark_safe c) := by
  obtain ⟨hsafe, hmine, hheap⟩ := h
  refine ⟨?_, hmine, ?_⟩
  · intro x hx
    rcases mem_insertC.mp hx with rfl | hx
    · exact hc
    · exact hsafe x hx
  · exact heap_trueS_broadcast (fun s hs => trueS_mark_safe hs hc) st.knowledge st.heap hheap

lemma sound_clean_up {M : Cell → Bool} {st : MinesweeperAI} (h : Sound M st) :
    Sound M st.clean_up_empty_knowledge :=
  ⟨h.1, h.2.1, h.2.2⟩

lemma known_mines_all_mine {M : Cell → Bool} {s : Sentence} (h : TrueS M s) :
    ∀ c ∈ s.known_mines, M c = true := by
  intro c hc
  unfold Sentence.known_mines at hc
  split at hc
  · rename_i hlen
    obtain ⟨hcount, hnd⟩ := h
    have : s.cells.countP M = s.cells.length := by omega
    exact List.countP_eq_length.mp this c hc
  · cases hc

lemma known_safes_all_safe {M : Cell → Bool} {s : Sentence} (h : TrueS M s) :
    ∀ c ∈ s.known_safes, M c = false := by
  intro c hc
  unfold Sentence.known_safes at hc
  split at hc
  · rename_i hzero
    obtain ⟨hcount, hnd⟩ := h
    have : s.cells.countP M = 0 := by omega
    have := List.countP_eq_zero.mp this c hc
    exact Bool.not_eq_true _ ▸ (by simpa using this)
  · cases hc

lemma mem_unionC {a : Cell} : ∀ {r l : List Cell}, a ∈ unionC l r ↔ a ∈ l ∨ a ∈ r := by
  intro r
  induction r with
  | nil => intro l; simp [unionC]
  | cons c r ih =>
    intro l
    show a ∈ r.foldl (fun acc x => insertC x acc) (insertC c l) ↔ _
    rw [show r.foldl (fun acc x => insertC x acc) (insertC c l) = unionC (insertC c l) r from rfl,
      ih, mem_insertC]
    constructor
    · rintro ((rfl | h) | h)
      · exact Or.inr (List.mem_cons_self _ _)
      · exact Or.inl h
      · exact Or.inr (List.mem_cons_of_mem _ h)
    · rintro (h | h)
      · exact Or.inl (Or.inr h)
      · rcases List.mem_cons.mp h with rfl | h
        · exact Or.inl (Or.inl rfl)
        · exact Or.inr h

lemma collected_all {P : Cell → Prop} {st : MinesweeperAI}
    (g : Sentence → List Cell) (hg : ∀ id, ∀ c ∈ g (st.lookupS id), P c) :
    ∀ (ids : List Nat) (acc : List Cell), (∀ c ∈ acc, P c) →
      ∀ c ∈ ids.foldl (fun acc id => unionC acc (g (st.lookupS id))) acc, P c
  | [], _, hacc => hacc
  | id :: ids, acc, hacc =>
    collected_all g hg ids (unionC acc (g (st.lookupS id))) (by
      intro c hc
      rcases mem_unionC.mp hc with h | h
      · exact hacc c h
      · exact hg id c h)

lemma sound_fold_mark_mine {M : Cell → Bool} :
    ∀ (l : List Cell) (st : MinesweeperAI), (∀ c ∈ l, M c = true) → Sound M st →
      Sound M (l.foldl (fun s c => s.mark_mine c) st)
  | [], _, _, h => h
  | c :: l, st, hl, h =>
    sound_fold_mark_mine l (st.mark_mine c)
      (fun x hx => hl x (List.mem_cons_of_mem _ hx))
      (sound_mark_mine h (hl c (List.mem_cons_self _ _)))

lemma sound_fold_mark_safe {M : Cell → Bool} :
    ∀ (l : List Cell) (st : MinesweeperAI), (∀ c ∈ l, M c = false) → Sound M st →
      Sound M (l.foldl (fun s c => s.mark_safe c) st)
  | [], _, _, h => h
  | c :: l, st, hl, h =>
    sound_fold_mark_safe l (st.mark_safe c)
      (fun x hx => hl x (List.mem_cons_of_mem _ hx))
      (sound_mark_safe h (hl c (List.mem_cons_self _ _)))

lemma sound_reason_while {M : Cell → Bool} :
    ∀ (fuel : Nat) (st st' : MinesweeperAI),
      reason_while fuel st = some st' → Sound M st → Sound M st' := by
  intro fuel
  induction fuel with
  | zero => intro st st' h; simp [reason_while] at h
  | succ f ih =>
    intro st st' h hS
    rw [reason_while] at h
    have hS1 : Sound M st.clean_up_empty_knowledge := sound_clean_up hS
    have hkm : ∀ c ∈ st.clean_up_empty_knowledge.knowledge.foldl
        (fun acc id => unionC acc (st.clean_up_empty_knowledge.lookupS id).known_mines) [],
        M c = true :=
      collected_all _ (fun id => known_mines_all_mine (lookupS_trueS hS1.2.2 id))
        _ _ (by intro c hc; cases hc)
    have hks : ∀ c ∈ st.clean_up_empty_knowledge.knowledge.foldl
        (fun acc id => unionC acc (st.clean_up_empty_knowledge.lookupS id).known_safes) [],
        M c = false :=
      collected_all _ (fun id => known_safes_all_safe (lookupS_trueS hS1.2.2 id))
        _ _ (by intro c hc; cases hc)
    have hS2 : Sound M (((st.clean_up_empty_knowledge.knowledge.foldl
        (fun acc id => unionC acc (st.clean_up_empty_knowledge.lookupS id).known_safes)
          []).foldl (fun s c => s.mark_safe c)
        ((st.clean_up_empty_knowledge.knowledge.foldl
          (fun acc id => unionC acc (st.clean_up_empty_knowledge.lookupS id).known_mines)
            []).foldl (fun s c => s.mark_mine c) st.clean_up_empty_knowledge))) := by
      apply sound_fold_mark_safe _ _ ?_ (sound_fold_mark_mine _ _ hkm hS1)
      intro c hc
      apply hks
      -- the mark_mine folds do not change the knowledge list or the heap
      -- lookups used to collect `known_safes`; the collection happened before
      -- marking, so `hc` is already about the pre-marking state
      exact hc
    split at h
    · exact ih _ _ h hS2
    · cases h
      exact hS2

lemma countP_split (A : List Cell) (q : Cell → Bool) (M : Cell → Bool) :
    A.countP M = (A.filter q).countP M + (A.filter (fun x => ! q x)).countP M := by
  induction A with
  | nil => rfl
  | cons a A ih =>
    rw [List.countP_cons, List.filter_cons, List.filter_cons]
    cases hq : q a <;> simp [hq, List.countP_cons] <;> omega

lemma countP_filter_mem_of_subset {A B : List Cell} (hA : A.Nodup) (hB : B.Nodup)
    (hsub : ∀ x ∈ B, x ∈ A) (M : Cell → Bool) :
    (A.filter (fun c => decide (c ∈ B))).countP M = B.countP M := by
  refine List.Perm.countP_eq M ?_
  rw [List.perm_ext_iff_of_nodup (hA.filter _) hB]
  intro x
  rw [List.mem_filter]
  simp only [decide_eq_true_eq]
  exact ⟨fun h => h.2, fun h => ⟨hsub x h, h⟩⟩

lemma trueS_resolution {M : Cell → Bool} {e nk : Sentence}
    (he : TrueS M e) (hnk : TrueS M nk) (hsub : subsetC nk.cells e.cells = true) :
    TrueS M ⟨e.cells.filter (fun c => decide (c ∉ nk.cells)), e.count - nk.count⟩ := by
  have hsub' : ∀ x ∈ nk.cells, x ∈ e.cells := by
    intro x hx
    have := List.all_eq_true.mp hsub x hx
    simpa using this
  obtain ⟨hecount, hend⟩ := he
  obtain ⟨hnkcount, hnknd⟩ := hnk
  refine ⟨?_, hend.filter _⟩
  show ((e.cells.filter (fun c => decide (c ∉ nk.cells))).countP M : Int) = e.count - nk.count
  have hsplit := countP_split e.cells (fun c => decide (c ∈ nk.cells)) M
  have hmem := countP_filter_mem_of_subset hend hnknd hsub' M
  have hcongr : e.cells.filter (fun x => ! decide (x ∈ nk.cells)) =
      e.cells.filter (fun c => decide (c ∉ nk.cells)) := by
    apply List.filter_congr
    intro x _
    simp
  rw [hcongr, hmem] at hsplit
  omega

lemma sound_reasonAux {M : Cell → Bool} :
    ∀ (fuel : Nat) (call : ReasonCall) (st' : MinesweeperAI),
      reasonAux fuel call = some st' → Sound M call.state → Sound M st' := by
  intro fuel
  induction fuel with
  | zero => intro call st' h; simp [reasonAux] at h
  | succ f ih =>
    intro call st' h hS
    cases call with
    | main st nkid =>
      simp only [reasonAux] at h
      split at h
      · cases h; exact hS
      · split at h
        · exact absurd h (by simp)
        · rename_i st1 hwhile
          exact ih _ _ h (sound_reason_while _ _ _ hwhile hS)
    | scan st nkid i =>
      simp only [reasonAux] at h
      split at h
      · cases h; exact hS
      · rename_i eid heid
        split at h
        · exact ih _ _ h (sound_clean_up hS)
        · rename_i hne
          split at h
          · rename_i hcond
            split at h
            · exact absurd h (by simp)
            · rename_i st'' hmain
              have hsub : subsetC (st.lookupS nkid).cells (st.lookupS eid).cells = true :=
                ((Bool.and_eq_true _ _).mp hcond).1
              have htr : TrueS M ⟨(st.lookupS eid).cells.filter
                  (fun c => decide (c ∉ (st.lookupS nkid).cells)),
                  (st.lookupS eid).count - (st.lookupS nkid).count⟩ :=
                trueS_resolution (lookupS_trueS hS.2.2 eid) (lookupS_trueS hS.2.2 nkid) hsub
              have hS' : Sound M { st with heap := updateHeap st.heap eid (fun _ =>
                  ⟨(st.lookupS eid).cells.filter
                    (fun c => decide (c ∉ (st.lookupS nkid).cells)),
                    (st.lookupS eid).count - (st.lookupS nkid).count⟩) } :=
                ⟨hS.1, hS.2.1, heap_trueS_updateHeap (fun _ _ => htr) hS.2.2⟩
              exact ih _ _ h (ih _ _ hmain hS')
          · exact ih (.scan st nkid (i + 1)) _ h hS

/-- The raw 3x3 candidate box scanned by both `get_unknown_neighbours` and
`nearby_mines` (proof-side abbreviation). -/
def box3 (cell : Cell) : List Cell :=
  [cell.1 - 1, cell.1, cell.1 + 1].flatMap
    (fun i => [cell.2 - 1, cell.2, cell.2 + 1].map (fun j => (i, j)))

lemma flatMap_filter_filter (rows cols : List Int) (pI pJ : Int → Bool) :
    (rows.filter pI).flatMap (fun i => (cols.filter pJ).map (fun j => ((i : Int), j))) =
      (rows.flatMap (fun i => cols.map (fun j => (i, j)))).filter
        (fun c => pI c.1 && pJ c.2) := by
  induction rows with
  | nil => rfl
  | cons r rows ih =>
    cases hr : pI r
    · rw [List.flatMap_cons, List.filter_append, ← ih]
      have h0 : List.filter (fun c => pI c.1 && pJ c.2)
          (cols.map (fun j => ((r : Int), j))) = [] := by
        rw [List.filter_eq_nil_iff]
        intro c hc
        obtain ⟨j, _, rfl⟩ := List.mem_map.mp hc
        simp [hr]
      have h1 : List.filter pI (r :: rows) = rows.filter pI := by
        rw [List.filter_cons, hr]
        simp
      rw [h0, h1, List.nil_append]
    · rw [List.flatMap_cons, List.filter_append, ← ih]
      have h1 : List.filter pI (r :: rows) = r :: rows.filter pI := by
        rw [List.filter_cons, hr]
        simp
      rw [h1, List.flatMap_cons]
      have h2 : List.filter ((fun c => pI c.1 && pJ c.2) ∘ (fun j => ((r : Int), j))) cols =
          List.filter pJ cols :=
        List.filter_congr (fun j _ => by simp [hr])
      rw [List.filter_map, h2]

lemma map_pair_disjoint {i1 i2 : Int} (h : i1 ≠ i2) (cols1 cols2 : List Int) :
    List.Disjoint (cols1.map (fun j => (i1, j))) (cols2.map (fun j => (i2, j))) := by
  intro a ha hb
  obtain ⟨j1, _, rfl⟩ := List.mem_map.mp ha
  obtain ⟨j2, _, h2⟩ := List.mem_map.mp hb
  exact h (congrArg Prod.fst h2).symm

lemma box3_nodup (cell : Cell) : (box3 cell).Nodup := by
  unfold box3
  rw [List.nodup_flatMap]
  constructor
  · intro i _
    apply List.Nodup.map (fun a b hab => congrArg Prod.snd hab)
    rw [List.nodup_cons, List.nodup_cons]
    refine ⟨?_, ?_, List.nodup_singleton _⟩ <;> simp <;> omega
  · refine List.Pairwise.cons ?_ (List.Pairwise.cons ?_ (List.pairwise_singleton _ _))
    · intro i hi
      rcases List.mem_cons.mp hi with rfl | hi
      · exact map_pair_disjoint (by omega) _ _
      · rw [List.mem_singleton] at hi
        subst hi
        exact map_pair_disjoint (by omega) _ _
    · intro i hi
      rw [List.mem_singleton] at hi
      subst hi
      exact map_pair_disjoint (by omega) _ _

lemma get_unknown_neighbours_eq (st : MinesweeperAI) (cell : Cell) :
    st.get_unknown_neighbours cell =
      ((box3 cell).filter (fun c =>
        decide (0 ≤ c.1 ∧ c.1 < st.height) && decide (0 ≤ c.2 ∧ c.2 < st.width))).filter
        (fun c => decide (c ∉ st.safes)) := by
  unfold MinesweeperAI.get_unknown_neighbours box3
  rw [flatMap_filter_filter]

lemma get_unknown_neighbours_nodup (st : MinesweeperAI) (cell : Cell) :
    (st.get_unknown_neighbours cell).Nodup := by
  rw [get_unknown_neighbours_eq]
  exact (((box3_nodup cell).filter _).filter _)

/-- The freshly created sentence of `add_knowledge` is true when the reported
count is the oracle's true `nearby_mines` value, the observed cell is not a
mine, and every cell already marked safe is truly safe. -/
lemma trueS_new_sentence {M : Cell → Bool} {st : MinesweeperAI} {cell : Cell}
    (hsafes : ∀ c ∈ st.safes, M c = false) (hcell : M cell = false) :
    TrueS M ⟨st.get_unknown_neighbours cell, nearby_mines M st.height st.width cell⟩ := by
  refine ⟨?_, get_unknown_neighbours_nodup st cell⟩
  show ((st.get_unknown_neighbours cell).countP M : Int) =
    nearby_mines M st.height st.width cell
  rw [get_unknown_neighbours_eq]
  unfold nearby_mines
  rw [← List.countP_eq_length_filter]
  have hbox : ([cell.1 - 1, cell.1, cell.1 + 1].flatMap
      (fun i => [cell.2 - 1, cell.2, cell.2 + 1].map (fun j => (i, j)))) = box3 cell := rfl
  rw [hbox]
  congr 1
  rw [List.countP_filter, List.countP_filter]
  apply List.countP_congr
  intro x _
  simp only [Bool.and_eq_true, decide_eq_true_eq]
  constructor
  · rintro ⟨⟨hm, hnotsafe⟩, h1, h2⟩
    refine ⟨?_, h1.1, h1.2, h2.1, h2.2, hm⟩
    rintro rfl
    rw [hcell] at hm
    cases hm
  · rintro ⟨hne, h1, h2, h3, h4, hm⟩
    refine ⟨⟨hm, ?_⟩, ⟨h1, h2⟩, h3, h4⟩
    intro hsafe
    rw [hsafes x hsafe] at hm
    cases hm

lemma sound_append_sentence {M : Cell → Bool} {st1 : MinesweeperAI} {s : Sentence}
    (nid : Nat) (hS1 : Sound M st1) (hts : TrueS M s) :
    Sound M { st1 with heap := st1.heap ++ [(nid, s)],
                       knowledge := st1.knowledge ++ [nid],
                       next_id := nid + 1 } := by
  refine ⟨hS1.1, hS1.2.1, ?_⟩
  intro p hp
  rcases List.mem_append.mp hp with h | h
  · exact hS1.2.2 p h
  · rw [List.mem_singleton] at h
    subst h
    exact hts

/-- One truthful `add_knowledge` call preserves `Sound`: the observed cell is
not a mine and the reported count is the oracle's `nearby_mines` value. -/
lemma sound_add_knowledge {M : Cell → Bool} {fuel : Nat} {st : MinesweeperAI}
    {cell : Cell} {count : Int} {st' : MinesweeperAI}
    (hS : Sound M st) (hcell : M cell = false)
    (hcount : count = nearby_mines M st.height st.width cell)
    (h : st.add_knowledge fuel cell count = some st') : Sound M st' := by
  simp only [MinesweeperAI.add_knowledge, MinesweeperAI.reason_about_new_knowledge] at h
  refine sound_reasonAux _ _ _ h ?_
  show Sound M _
  have hS0 : Sound M { st with moves_made := insertC cell st.moves_made } :=
    ⟨hS.1, hS.2.1, hS.2.2⟩
  have hS1 := sound_mark_safe hS0 hcell
  have htrue : TrueS M ⟨(({ st with moves_made := insertC cell st.moves_made} :
      MinesweeperAI).mark_safe cell).get_unknown_neighbours cell, count⟩ := by
    rw [hcount]
    exact trueS_new_sentence hS1.1 hcell
  have hS2 := sound_append_sentence st.next_id hS1 htrue
  apply sound_fold_mark_mine _ _ ?_ hS2
  intro c hc
  rw [List.mem_filter] at hc
  exact hS.2.1 c (by simpa using hc.2)

lemma sound_init (M : Cell → Bool) (height width : Int) :
    Sound M (MinesweeperAI.init height width) :=
  ⟨fun c hc => absurd hc (List.not_mem_nil c),
   fun c hc => absurd hc (List.not_mem_nil c),
   fun p hp => absurd hp (List.not_mem_nil p)⟩

lemma sound_runTrace {M : Cell → Bool} {fuel : Nat} :
    ∀ (obs : List (Cell × Int)) (st st' : MinesweeperAI), Sound M st →
      (∀ p ∈ obs, M p.1 = false ∧ p.2 = nearby_mines M st.height st.width p.1) →
      runTrace fuel st obs = some st' → Sound M st' := by
  intro obs
  induction obs with
  | nil =>
    intro st st' hS _ h
    rw [runTrace] at h
    cases h
    exact hS
  | cons p obs ih =>
    obtain ⟨c, n⟩ := p
    intro st st' hS hobs h
    rw [runTrace] at h
    split at h
    · exact absurd h (by simp)
    · rename_i st1 hadd
      have h1 := hobs (c, n) (List.mem_cons_self _ _)
      have hS1 := sound_add_knowledge hS h1.1 h1.2 hadd
      have hdim := (add_knowledge_effects fuel st c n st1 hadd).2.2.2.2
      refine ih st1 st' hS1 ?_ h
      intro q hq
      rw [hdim.1, hdim.2.1]
      exact hobs q (List.mem_cons_of_mem _ hq)

/-! ### Claims C1 and C2: soundness invariants under truthful observations -/

/-- C1 (amended): for every observation sequence conforming to the oracle
contract — each observed cell is not a mine and each reported count is the
true `nearby_mines` value of the board — every constraint ever created (the
whole object heap, including sentences later dropped from the working set)
satisfies `0 ≤ count ≤ |cells|` whenever `observe` returns.  (The invariant
`Sound` used in the proof is preserved by every primitive mutation of the
engine, so it also holds at every intermediate point of the propagation.) -/
theorem count_bounds_of_truthful_trace (M : Cell → Bool) (height width : Int)
    (fuel : Nat) (obs : List (Cell × Int)) (st' : MinesweeperAI)
    (hobs : ∀ p ∈ obs, M p.1 = false ∧ p.2 = nearby_mines M height width p.1)
    (hrun : runTrace fuel (MinesweeperAI.init height width) obs = some st') :
    ∀ p ∈ st'.heap, 0 ≤ p.2.count ∧ p.2.count ≤ (p.2.cells.length : Int) := by
  have hS : Sound M st' :=
    sound_runTrace obs (MinesweeperAI.init height width) st'
      (sound_init M height width) hobs hrun
  intro p hp
  obtain ⟨hcount, hnd⟩ := hS.2.2 p hp
  have hle := List.countP_le_length M (l := p.2.cells)
  omega

def c1WitState : MinesweeperAI :=
  (runTrace 10 (MinesweeperAI.init 1 1) [((0, 0), 0)]).getD (MinesweeperAI.init 1 1)

theorem count_bounds_of_truthful_trace_witness :
    0 ≤ ((0 : Nat), Sentence.mk [] 0).2.count ∧
    ((0 : Nat), Sentence.mk [] 0).2.count ≤
      (((0 : Nat), Sentence.mk [] 0).2.cells.length : Int) :=
  count_bounds_of_truthful_trace (fun _ => false) 1 1 10 [((0, 0), 0)] c1WitState
    (by decide) (by decide) ((0 : Nat), Sentence.mk [] 0) (by decide)

/-- C2 (amended): for every observation sequence conforming to the oracle
contract, the sets of known-safe and known-mine cells are disjoint after every
`observe` call (the invariant used in the proof is preserved by every
primitive mutation, so disjointness also holds mid-propagation). -/
theorem disjointness_of_truthful_trace (M : Cell → Bool) (height width : Int)
    (fuel : Nat) (obs : List (Cell × Int)) (st' : MinesweeperAI)
    (hobs : ∀ p ∈ obs, M p.1 = false ∧ p.2 = nearby_mines M height width p.1)
    (hrun : runTrace fuel (MinesweeperAI.init height width) obs = some st') :
    ∀ c ∈ st'.safes, c ∉ st'.mines := by
  have hS : Sound M st' :=
    sound_runTrace obs (MinesweeperAI.init height width) st'
      (sound_init M height width) hobs hrun
  intro c hc hm
  have h1 := hS.1 c hc
  have h2 := hS.2.1 c hm
  rw [h1] at h2
  cases h2

def c2WitState : MinesweeperAI :=
  (runTrace 100 (MinesweeperAI.init 2 2) [((0, 0), 1), ((0, 1), 1)]).getD
    (MinesweeperAI.init 2 2)

theorem disjointness_of_truthful_trace_witness : (0, 0) ∉ c2WitState.mines :=
  disjointness_of_truthful_trace (fun c => decide (c = ((1 : Int), (1 : Int)))) 2 2 100
    [((0, 0), 1), ((0, 1), 1)] c2WitState (by decide) (by decide) (0, 0) (by decide)

/-! ### Termination of the propagation recursion (claim C7)

The key measure is `mu st`: the total number of cell slots of the sentences
currently in the knowledge list.  Every mutation of the engine is
non-increasing on `mu`, and every recursive self-invocation of
`reason_about_new_knowledge` happens strictly below the `mu` of its caller's
entry state; the inner `while` loop is bounded by the number of support cells
not yet marked.  From these facts enough fuel always exists. -/

/-- Heap-level lookup (agrees with `MinesweeperAI.lookupS`). -/
def lookupH (h : List (Nat × Sentence)) (id : Nat) : Sentence :=
  match h.find? (fun p => p.1 == id) with
  | some p => p.2
  | none => ⟨[], 0⟩

lemma lookupS_eq_lookupH (st : MinesweeperAI) (id : Nat) :
    st.lookupS id = lookupH st.heap id := rfl

lemma find?_updateHeap (h : List (Nat × Sentence)) (id : Nat) (f : Sentence → Sentence)
    (id' : Nat) :
    (updateHeap h id f).find? (fun p => p.1 == id') =
      (h.find? (fun p => p.1 == id')).map
        (fun p => if p.1 = id then (p.1, f p.2) else p) := by
  induction h with
  | nil => rfl
  | cons p h ih =>
    show List.find? _ ((if p.1 = id then (p.1, f p.2) else p) :: updateHeap h id f) = _
    rw [List.find?_cons, List.find?_cons]
    have hfst : (if p.1 = id then (p.1, f p.2) else p).1 = p.1 := by
      split <;> rfl
    rw [hfst]
    cases hp : (p.1 == id' : Bool)
    · exact ih
    · rfl

lemma Sentence.not_mem_mark_mine (s : Sentence) (c : Cell) :
    c ∉ (s.mark_mine c).cells := by
  unfold Sentence.mark_mine
  split
  · simp [List.mem_filter]
  · assumption

lemma Sentence.not_mem_mark_safe (s : Sentence) (c : Cell) :
    c ∉ (s.mark_safe c).cells := by
  unfold Sentence.mark_safe
  split
  · simp [List.mem_filter]
  · assumption

lemma Sentence.mark_mine_of_not_mem {s : Sentence} {c : Cell} (h : c ∉ s.cells) :
    s.mark_mine c = s := by
  unfold Sentence.mark_mine
  rw [if_neg h]

lemma Sentence.mark_safe_of_not_mem {s : Sentence} {c : Cell} (h : c ∉ s.cells) :
    s.mark_safe c = s := by
  unfold Sentence.mark_safe
  rw [if_neg h]

lemma Sentence.mark_mine_idem (s : Sentence) (c : Cell) :
    (s.mark_mine c).mark_mine c = s.mark_mine c :=
  Sentence.mark_mine_of_not_mem (Sentence.not_mem_mark_mine s c)

lemma Sentence.mark_safe_idem (s : Sentence) (c : Cell) :
    (s.mark_safe c).mark_safe c = s.mark_safe c :=
  Sentence.mark_safe_of_not_mem (Sentence.not_mem_mark_safe s c)

lemma Sentence.mark_mine_default (c : Cell) :
    (Sentence.mk [] 0).mark_mine c = Sentence.mk [] 0 :=
  Sentence.mark_mine_of_not_mem (List.not_mem_nil c)

lemma Sentence.mark_safe_default (c : Cell) :
    (Sentence.mk [] 0).mark_safe c = Sentence.mk [] 0 :=
  Sentence.mark_safe_of_not_mem (List.not_mem_nil c)

lemma lookupH_updateHeap (h : List (Nat × Sentence)) (id : Nat) (f : Sentence → Sentence)
    (hdef : f ⟨[], 0⟩ = ⟨[], 0⟩) (id' : Nat) :
    lookupH (updateHeap h id f) id' =
      if id' = id then f (lookupH h id') else lookupH h id' := by
  by_cases hid : id' = id
  · subst hid
    rw [if_pos rfl]
    unfold lookupH
    rw [find?_updateHeap]
    cases hfind : h.find? (fun p => p.1 == id') with
    | none => exact hdef.symm
    | some p =>
      have hp1 : p.1 = id' := by simpa using List.find?_some hfind
      show (if p.1 = id' then (p.1, f p.2) else p).2 = f p.2
      rw [if_pos hp1]
  · rw [if_neg hid]
    unfold lookupH
    rw [find?_updateHeap]
    cases hfind : h.find? (fun p => p.1 == id') with
    | none => rfl
    | some p =>
      have hp1 : p.1 = id' := by simpa using List.find?_some hfind
      show (if p.1 = id then (p.1, f p.2) else p).2 = p.2
      rw [if_neg (by rw [hp1]; exact hid)]

lemma lookupH_broadcast {f : Sentence → Sentence} (hidem : ∀ s, f (f s) = f s)
    (hdef : f ⟨[], 0⟩ = ⟨[], 0⟩) :
    ∀ (ids : List Nat) (h : List (Nat × Sentence)) (id' : Nat),
      lookupH (ids.foldl (fun h i => updateHeap h i f) h) id' =
        if id' ∈ ids then f (lookupH h id') else lookupH h id' := by
  intro ids
  induction ids with
  | nil => intro h id'; simp
  | cons i ids ih =>
    intro h id'
    show lookupH (ids.foldl (fun h i => updateHeap h i f) (updateHeap h i f)) id' = _
    rw [ih, lookupH_updateHeap h i f hdef]
    by_cases h1 : id' ∈ ids
    · rw [if_pos h1, if_pos (List.mem_cons_of_mem _ h1)]
      by_cases h2 : id' = i
      · rw [if_pos h2, hidem]
      · rw [if_neg h2]
    · rw [if_neg h1]
      by_cases h2 : id' = i
      · rw [if_pos h2, if_pos (List.mem_cons.mpr (Or.inl h2))]
      · rw [if_neg h2, if_neg (by
          intro hmem
          rcases List.mem_cons.mp hmem with hh | hh
          · exact h2 hh
          · exact h1 hh)]

lemma lookupS_mark_mine (st : MinesweeperAI) (c : Cell) (id : Nat) :
    (st.mark_mine c).lookupS id =
      if id ∈ st.knowledge then (st.lookupS id).mark_mine c else st.lookupS id := by
  rw [lookupS_eq_lookupH, lookupS_eq_lookupH]
  exact lookupH_broadcast (f := fun s => s.mark_mine c)
    (fun s => Sentence.mark_mine_idem s c)
    (Sentence.mark_mine_default c) st.knowledge st.heap id

lemma lookupS_mark_safe (st : MinesweeperAI) (c : Cell) (id : Nat) :
    (st.mark_safe c).lookupS id =
      if id ∈ st.knowledge then (st.lookupS id).mark_safe c else st.lookupS id := by
  rw [lookupS_eq_lookupH, lookupS_eq_lookupH]
  exact lookupH_broadcast (f := fun s => s.mark_safe c)
    (fun s => Sentence.mark_safe_idem s c)
    (Sentence.mark_safe_default c) st.knowledge st.heap id

lemma lookupS_clean (st : MinesweeperAI) (id : Nat) :
    st.clean_up_empty_knowledge.lookupS id = st.lookupS id := rfl

lemma mark_mine_safes (st : MinesweeperAI) (c : Cell) : (st.mark_mine c).safes = st.safes := rfl

lemma mark_mine_mines (st : MinesweeperAI) (c : Cell) :
    (st.mark_mine c).mines = insertC c st.mines := rfl

lemma mark_mine_knowledge (st : MinesweeperAI) (c : Cell) :
    (st.mark_mine c).knowledge = st.knowledge := rfl

lemma mark_safe_safes (st : MinesweeperAI) (c : Cell) :
    (st.mark_safe c).safes = insertC c st.safes := rfl

lemma mark_safe_mines (st : MinesweeperAI) (c : Cell) : (st.mark_safe c).mines = st.mines := rfl

lemma mark_safe_knowledge (st : MinesweeperAI) (c : Cell) :
    (st.mark_safe c).knowledge = st.knowledge := rfl

lemma clean_safes (st : MinesweeperAI) : st.clean_up_empty_knowledge.safes = st.safes := rfl

lemma clean_mines (st : MinesweeperAI) : st.clean_up_empty_knowledge.mines = st.mines := rfl

lemma Sentence.mark_mine_cells_subset {s : Sentence} {c x : Cell}
    (h : x ∈ (s.mark_mine c).cells) : x ∈ s.cells := by
  unfold Sentence.mark_mine at h
  split at h
  · exact (List.mem_filter.mp h).1
  · exact h

lemma Sentence.mark_safe_cells_subset {s : Sentence} {c x : Cell}
    (h : x ∈ (s.mark_safe c).cells) : x ∈ s.cells := by
  unfold Sentence.mark_safe at h
  split at h
  · exact (List.mem_filter.mp h).1
  · exact h

lemma Sentence.mark_mine_cells_length (s : Sentence) (c : Cell) :
    (s.mark_mine c).cells.length ≤ s.cells.length := by
  unfold Sentence.mark_mine
  split
  · exact List.length_filter_le _ _
  · exact Nat.le_refl _

lemma Sentence.mark_safe_cells_length (s : Sentence) (c : Cell) :
    (s.mark_safe c).cells.length ≤ s.cells.length := by
  unfold Sentence.mark_safe
  split
  · exact List.length_filter_le _ _
  · exact Nat.le_refl _

lemma fold_mark_mine_knowledge :
    ∀ (l : List Cell) (st : MinesweeperAI),
      (l.foldl (fun s c => s.mark_mine c) st).knowledge = st.knowledge
  | [], _ => rfl
  | c :: l, st => fold_mark_mine_knowledge l (st.mark_mine c)

lemma fold_mark_safe_knowledge :
    ∀ (l : List Cell) (st : MinesweeperAI),
      (l.foldl (fun s c => s.mark_safe c) st).knowledge = st.knowledge
  | [], _ => rfl
  | c :: l, st => fold_mark_safe_knowledge l (st.mark_safe c)

lemma fold_mark_mine_safes :
    ∀ (l : List Cell) (st : MinesweeperAI),
      (l.foldl (fun s c => s.mark_mine c) st).safes = st.safes
  | [], _ => rfl
  | c :: l, st => fold_mark_mine_safes l (st.mark_mine c)

lemma fold_mark_safe_mines :
    ∀ (l : List Cell) (st : MinesweeperAI),
      (l.foldl (fun s c => s.mark_safe c) st).mines = st.mines
  | [], _ => rfl
  | c :: l, st => fold_mark_safe_mines l (st.mark_safe c)

lemma fold_mark_mine_mines :
    ∀ (l : List Cell) (st : MinesweeperAI),
      (l.foldl (fun s c => s.mark_mine c) st).mines = unionC st.mines l
  | [], _ => rfl
  | c :: l, st => fold_mark_mine_mines l (st.mark_mine c)

lemma fold_mark_safe_safes :
    ∀ (l : List Cell) (st : MinesweeperAI),
      (l.foldl (fun s c => s.mark_safe c) st).safes = unionC st.safes l
  | [], _ => rfl
  | c :: l, st => fold_mark_safe_safes l (st.mark_safe c)

lemma nat_sum_le_sum {l : List Nat} {f g : Nat → Nat} (h : ∀ i ∈ l, f i ≤ g i) :
    (l.map f).sum ≤ (l.map g).sum :=
  List.sum_le_sum h

lemma nat_sum_lt_sum {l : List Nat} (f g : Nat → Nat) (hle : ∀ i ∈ l, f i ≤ g i)
    (hlt : ∃ i ∈ l, f i < g i) : (l.map f).sum < (l.map g).sum :=
  List.sum_lt_sum f g hle hlt

/-- Total number of cell slots of the sentences currently in the knowledge
list: the central termination measure. -/
def mu (st : MinesweeperAI) : Nat :=
  (st.knowledge.map (fun id => (st.lookupS id).cells.length)).sum

lemma mu_mark_mine_le (st : MinesweeperAI) (c : Cell) : mu (st.mark_mine c) ≤ mu st := by
  unfold mu
  rw [mark_mine_knowledge]
  refine nat_sum_le_sum (fun id _ => ?_)
  rw [lookupS_mark_mine]
  split
  all_goals first
    | exact Sentence.mark_mine_cells_length _ _
    | exact Nat.le_refl _

lemma mu_mark_safe_le (st : MinesweeperAI) (c : Cell) : mu (st.mark_safe c) ≤ mu st := by
  unfold mu
  rw [mark_safe_knowledge]
  refine nat_sum_le_sum (fun id _ => ?_)
  rw [lookupS_mark_safe]
  split
  all_goals first
    | exact Sentence.mark_safe_cells_length _ _
    | exact Nat.le_refl _

lemma sum_map_filter_eq {l : List Nat} {p : Nat → Bool} {f : Nat → Nat}
    (h0 : ∀ i ∈ l, p i = false → f i = 0) :
    ((l.filter p).map f).sum = (l.map f).sum := by
  induction l with
  | nil => rfl
  | cons a l ih =>
    rw [List.filter_cons]
    cases hp : p a
    · simp only [Bool.false_eq_true, if_false, List.map_cons, List.sum_cons]
      rw [h0 a (List.mem_cons_self _ _) hp, ih (fun i hi => h0 i (List.mem_cons_of_mem _ hi))]
      omega
    · simp only [if_true, List.map_cons, List.sum_cons]
      rw [ih (fun i hi => h0 i (List.mem_cons_of_mem _ hi))]

lemma mu_clean_eq (st : MinesweeperAI) : mu st.clean_up_empty_knowledge = mu st := by
  unfold mu MinesweeperAI.clean_up_empty_knowledge
  apply sum_map_filter_eq
  intro id _ hp
  have : ¬ ((st.lookupS id).cells ≠ []) := by simpa using hp
  have hcells : (st.lookupS id).cells = [] := not_not.mp this
  show (st.lookupS id).cells.length = 0
  rw [hcells]
  rfl

lemma mu_fold_mark_mine_le :
    ∀ (l : List Cell) (st : MinesweeperAI), mu (l.foldl (fun s c => s.mark_mine c) st) ≤ mu st
  | [], _ => le_refl _
  | c :: l, st => (mu_fold_mark_mine_le l (st.mark_mine c)).trans (mu_mark_mine_le st c)

lemma mu_fold_mark_safe_le :
    ∀ (l : List Cell) (st : MinesweeperAI), mu (l.foldl (fun s c => s.mark_safe c) st) ≤ mu st
  | [], _ => le_refl _
  | c :: l, st => (mu_fold_mark_safe_le l (st.mark_safe c)).trans (mu_mark_safe_le st c)

lemma mark_mine_pres (st : MinesweeperAI) (c : Cell) (id : Nat)
    (h : (st.lookupS id).cells ≠ []) :
    ((st.mark_mine c).lookupS id).cells ≠ [] ∨ mu (st.mark_mine c) < mu st := by
  rw [lookupS_mark_mine]
  by_cases hin : id ∈ st.knowledge
  · rw [if_pos hin]
    by_cases hne : ((st.lookupS id).mark_mine c).cells = []
    · right
      unfold mu
      rw [mark_mine_knowledge]
      refine nat_sum_lt_sum _ _ (fun i _ => ?_) ?_
      · rw [lookupS_mark_mine]
        split
        all_goals first
          | exact Sentence.mark_mine_cells_length _ _
          | exact Nat.le_refl _
      · refine ⟨id, hin, ?_⟩
        rw [lookupS_mark_mine, if_pos hin, hne]
        simpa using List.length_pos.mpr h
    · left
      exact hne
  · rw [if_neg hin]
    left
    exact h

lemma mark_safe_pres (st : MinesweeperAI) (c : Cell) (id : Nat)
    (h : (st.lookupS id).cells ≠ []) :
    ((st.mark_safe c).lookupS id).cells ≠ [] ∨ mu (st.mark_safe c) < mu st := by
  rw [lookupS_mark_safe]
  by_cases hin : id ∈ st.knowledge
  · rw [if_pos hin]
    by_cases hne : ((st.lookupS id).mark_safe c).cells = []
    · right
      unfold mu
      rw [mark_safe_knowledge]
      refine nat_sum_lt_sum _ _ (fun i _ => ?_) ?_
      · rw [lookupS_mark_safe]
        split
        all_goals first
          | exact Sentence.mark_safe_cells_length _ _
          | exact Nat.le_refl _
      · refine ⟨id, hin, ?_⟩
        rw [lookupS_mark_safe, if_pos hin, hne]
        simpa using List.length_pos.mpr h
    · left
      exact hne
  · rw [if_neg hin]
    left
    exact h

lemma fold_mark_mine_pres :
    ∀ (l : List Cell) (st : MinesweeperAI) (id : Nat), (st.lookupS id).cells ≠ [] →
      (((l.foldl (fun s c => s.mark_mine c) st).lookupS id).cells ≠ [] ∨
        mu (l.foldl (fun s c => s.mark_mine c) st) < mu st)
  | [], _, _, h => Or.inl h
  | c :: l, st, id, h => by
    rcases mark_mine_pres st c id h with h1 | h1
    · rcases fold_mark_mine_pres l (st.mark_mine c) id h1 with h2 | h2
      · exact Or.inl h2
      · exact Or.inr (lt_of_lt_of_le h2 (mu_mark_mine_le st c))
    · exact Or.inr (lt_of_le_of_lt (mu_fold_mark_mine_le l (st.mark_mine c)) h1)

lemma fold_mark_safe_pres :
    ∀ (l : List Cell) (st : MinesweeperAI) (id : Nat), (st.lookupS id).cells ≠ [] →
      (((l.foldl (fun s c => s.mark_safe c) st).lookupS id).cells ≠ [] ∨
        mu (l.foldl (fun s c => s.mark_safe c) st) < mu st)
  | [], _, _, h => Or.inl h
  | c :: l, st, id, h => by
    rcases mark_safe_pres st c id h with h1 | h1
    · rcases fold_mark_safe_pres l (st.mark_safe c) id h1 with h2 | h2
      · exact Or.inl h2
      · exact Or.inr (lt_of_lt_of_le h2 (mu_mark_safe_le st c))
    · exact Or.inr (lt_of_le_of_lt (mu_fold_mark_safe_le l (st.mark_safe c)) h1)

/-- Cells currently appearing in some sentence of the knowledge list. -/
def supp (st : MinesweeperAI) : Finset Cell :=
  (st.knowledge.flatMap (fun id => (st.lookupS id).cells)).toFinset

lemma mem_supp {st : MinesweeperAI} {x : Cell} :
    x ∈ supp st ↔ ∃ id ∈ st.knowledge, x ∈ (st.lookupS id).cells := by
  unfold supp
  rw [List.mem_toFinset, List.mem_flatMap]

lemma supp_clean_subset (st : MinesweeperAI) : supp st.clean_up_empty_knowledge ⊆ supp st := by
  intro x hx
  rw [mem_supp] at hx ⊢
  obtain ⟨id, hid, hc⟩ := hx
  exact ⟨id, List.mem_of_mem_filter hid, hc⟩

lemma supp_mark_mine_subset (st : MinesweeperAI) (c : Cell) :
    supp (st.mark_mine c) ⊆ supp st := by
  intro x hx
  rw [mem_supp] at hx ⊢
  obtain ⟨id, hid, hc⟩ := hx
  rw [mark_mine_knowledge] at hid
  rw [lookupS_mark_mine] at hc
  refine ⟨id, hid, ?_⟩
  by_cases h : id ∈ st.knowledge
  · rw [if_pos h] at hc
    exact Sentence.mark_mine_cells_subset hc
  · rw [if_neg h] at hc
    exact hc

lemma supp_mark_safe_subset (st : MinesweeperAI) (c : Cell) :
    supp (st.mark_safe c) ⊆ supp st := by
  intro x hx
  rw [mem_supp] at hx ⊢
  obtain ⟨id, hid, hc⟩ := hx
  rw [mark_safe_knowledge] at hid
  rw [lookupS_mark_safe] at hc
  refine ⟨id, hid, ?_⟩
  by_cases h : id ∈ st.knowledge
  · rw [if_pos h] at hc
    exact Sentence.mark_safe_cells_subset hc
  · rw [if_neg h] at hc
    exact hc

lemma not_mem_supp_mark_mine (st : MinesweeperAI) (c : Cell) :
    c ∉ supp (st.mark_mine c) := by
  intro h
  rw [mem_supp] at h
  obtain ⟨id, hid, hc⟩ := h
  rw [mark_mine_knowledge] at hid
  rw [lookupS_mark_mine, if_pos hid] at hc
  exact Sentence.not_mem_mark_mine _ c hc

lemma not_mem_supp_mark_safe (st : MinesweeperAI) (c : Cell) :
    c ∉ supp (st.mark_safe c) := by
  intro h
  rw [mem_supp] at h
  obtain ⟨id, hid, hc⟩ := h
  rw [mark_safe_knowledge] at hid
  rw [lookupS_mark_safe, if_pos hid] at hc
  exact Sentence.not_mem_mark_safe _ c hc

lemma supp_fold_mark_mine_subset :
    ∀ (l : List Cell) (st : MinesweeperAI),
      supp (l.foldl (fun s c => s.mark_mine c) st) ⊆ supp st
  | [], _ => fun _ h => h
  | c :: l, st => fun x hx =>
    supp_mark_mine_subset st c (supp_fold_mark_mine_subset l (st.mark_mine c) hx)

lemma supp_fold_mark_safe_subset :
    ∀ (l : List Cell) (st : MinesweeperAI),
      supp (l.foldl (fun s c => s.mark_safe c) st) ⊆ supp st
  | [], _ => fun _ h => h
  | c :: l, st => fun x hx =>
    supp_mark_safe_subset st c (supp_fold_mark_safe_subset l (st.mark_safe c) hx)

lemma not_mem_supp_fold_mark_mine :
    ∀ (l : List Cell) (st : MinesweeperAI) (c : Cell), c ∈ l →
      c ∉ supp (l.foldl (fun s c => s.mark_mine c) st) := by
  intro l
  induction l with
  | nil => intro st c hc; cases hc
  | cons a l ih =>
    intro st c hc
    rcases List.mem_cons.mp hc with rfl | hc
    · intro hmem
      exact not_mem_supp_mark_mine st c
        (supp_fold_mark_mine_subset l (st.mark_mine c) hmem)
    · exact ih (st.mark_mine a) c hc

lemma not_mem_supp_fold_mark_safe :
    ∀ (l : List Cell) (st : MinesweeperAI) (c : Cell), c ∈ l →
      c ∉ supp (l.foldl (fun s c => s.mark_safe c) st) := by
  intro l
  induction l with
  | nil => intro st c hc; cases hc
  | cons a l ih =>
    intro st c hc
    rcases List.mem_cons.mp hc with rfl | hc
    · intro hmem
      exact not_mem_supp_mark_safe st c
        (supp_fold_mark_safe_subset l (st.mark_safe c) hmem)
    · exact ih (st.mark_safe a) c hc

lemma mem_collected_fold {g : Sentence → List Cell} {st : MinesweeperAI} :
    ∀ (ids : List Nat) (acc : List Cell) (c : Cell),
      c ∈ ids.foldl (fun acc id => unionC acc (g (st.lookupS id))) acc →
      c ∈ acc ∨ ∃ id ∈ ids, c ∈ g (st.lookupS id) := by
  intro ids
  induction ids with
  | nil => intro acc c hc; exact Or.inl hc
  | cons id ids ih =>
    intro acc c hc
    rcases ih (unionC acc (g (st.lookupS id))) c hc with h | ⟨id', hid', hg⟩
    · rcases mem_unionC.mp h with h | h
      · exact Or.inl h
      · exact Or.inr ⟨id, List.mem_cons_self _ _, h⟩
    · exact Or.inr ⟨id', List.mem_cons_of_mem _ hid', hg⟩

lemma known_mines_subset_cells (s : Sentence) : ∀ x ∈ s.known_mines, x ∈ s.cells := by
  intro x hx
  unfold Sentence.known_mines at hx
  split at hx
  · exact hx
  · cases hx

lemma known_safes_subset_cells (s : Sentence) : ∀ x ∈ s.known_safes, x ∈ s.cells := by
  intro x hx
  unfold Sentence.known_safes at hx
  split at hx
  · exact hx
  · cases hx

lemma insertC_of_mem {c : Cell} {l : List Cell} (h : c ∈ l) : insertC c l = l := by
  unfold insertC
  rw [if_pos h]

lemma unionC_length_ne :
    ∀ (l m : List Cell), (unionC m l).length ≠ m.length → ∃ c ∈ l, c ∉ m := by
  intro l
  induction l with
  | nil => intro m h; exact absurd rfl h
  | cons c l ih =>
    intro m h
    by_cases hc : c ∈ m
    · have : unionC m (c :: l) = unionC m l := by
        show unionC (insertC c m) l = unionC m l
        rw [insertC_of_mem hc]
      rw [this] at h
      obtain ⟨x, hx, hxm⟩ := ih m h
      exact ⟨x, List.mem_cons_of_mem _ hx, hxm⟩
    · exact ⟨c, List.mem_cons_self _ _, hc⟩

lemma mem_unionC_left {c : Cell} {m l : List Cell} (h : c ∈ m) : c ∈ unionC m l :=
  mem_unionC.mpr (Or.inl h)

/-- The state transformation performed by one iteration of the `while` loop of
`reason_about_new_knowledge` (proof-side abbreviation). -/
def whileBody (st : MinesweeperAI) : MinesweeperAI :=
  let s1 := st.clean_up_empty_knowledge
  let km := s1.knowledge.foldl (fun acc id => unionC acc (s1.lookupS id).known_mines) []
  let ks := s1.knowledge.foldl (fun acc id => unionC acc (s1.lookupS id).known_safes) []
  ks.foldl (fun s c => s.mark_safe c) (km.foldl (fun s c => s.mark_mine c) s1)

lemma reason_while_succ (f : Nat) (st : MinesweeperAI) :
    reason_while (f + 1) st =
      if (whileBody st).safes.length ≠ st.clean_up_empty_knowledge.safes.length ∨
          (whileBody st).mines.length ≠ st.clean_up_empty_knowledge.mines.length then
        reason_while f (whileBody st)
      else some (whileBody st) := rfl

lemma whileBody_mu_le (st : MinesweeperAI) : mu (whileBody st) ≤ mu st :=
  (mu_fold_mark_safe_le _ _).trans
    ((mu_fold_mark_mine_le _ _).trans (le_of_eq (mu_clean_eq st)))

lemma whileBody_pres (st : MinesweeperAI) (id : Nat) (h : (st.lookupS id).cells ≠ []) :
    ((whileBody st).lookupS id).cells ≠ [] ∨ mu (whileBody st) < mu st := by
  have h1 : (st.clean_up_empty_knowledge.lookupS id).cells ≠ [] := h
  rcases fold_mark_mine_pres
      (st.clean_up_empty_knowledge.knowledge.foldl
        (fun acc id => unionC acc (st.clean_up_empty_knowledge.lookupS id).known_mines) [])
      st.clean_up_empty_knowledge id h1 with h2 | h2
  · rcases fold_mark_safe_pres
        (st.clean_up_empty_knowledge.knowledge.foldl
          (fun acc id => unionC acc (st.clean_up_empty_knowledge.lookupS id).known_safes) [])
        _ id h2 with h3 | h3
    · exact Or.inl h3
    · exact Or.inr (lt_of_lt_of_le h3
        ((mu_fold_mark_mine_le _ _).trans (le_of_eq (mu_clean_eq st))))
  · exact Or.inr (lt_of_le_of_lt (mu_fold_mark_safe_le _ _)
      (lt_of_lt_of_le h2 (le_of_eq (mu_clean_eq st))))

lemma whileBody_knowledge (st : MinesweeperAI) :
    (whileBody st).knowledge = st.clean_up_empty_knowledge.knowledge := by
  unfold whileBody
  rw [fold_mark_safe_knowledge, fold_mark_mine_knowledge]

lemma whileBody_knowledge_len (st : MinesweeperAI) :
    (whileBody st).knowledge.length ≤ st.knowledge.length := by
  rw [whileBody_knowledge]
  exact List.length_filter_le _ _

/-- The `while`-loop termination measure: support cells not yet marked. -/
def suppW (st : MinesweeperAI) : Nat :=
  ((supp st) \ st.mines.toFinset).card + ((supp st) \ st.safes.toFinset).card

lemma whileBody_cond_W (st : MinesweeperAI)
    (hcond : (whileBody st).safes.length ≠ st.clean_up_empty_knowledge.safes.length ∨
      (whileBody st).mines.length ≠ st.clean_up_empty_knowledge.mines.length) :
    suppW (whileBody st) < suppW st := by
  set s1 := st.clean_up_empty_knowledge with hs1
  set km := s1.knowledge.foldl
    (fun acc id => unionC acc (s1.lookupS id).known_mines) [] with hkm
  set ks := s1.knowledge.foldl
    (fun acc id => unionC acc (s1.lookupS id).known_safes) [] with hks
  set stM := km.foldl (fun s c => s.mark_mine c) s1 with hstM
  have hbody : whileBody st = ks.foldl (fun s c => s.mark_safe c) stM := rfl
  have hsafes2 : (whileBody st).safes = unionC s1.safes ks := by
    rw [hbody, fold_mark_safe_safes, hstM, fold_mark_mine_safes]
  have hmines2 : (whileBody st).mines = unionC s1.mines km := by
    rw [hbody, fold_mark_safe_mines, hstM, fold_mark_mine_mines]
  have hsupp2 : supp (whileBody st) ⊆ supp st := by
    rw [hbody]
    exact fun x hx => supp_clean_subset st
      (supp_fold_mark_mine_subset _ _ (supp_fold_mark_safe_subset _ _ hx))
  have hminesup : st.mines.toFinset ⊆ (whileBody st).mines.toFinset := by
    intro x hx
    rw [List.mem_toFinset] at hx ⊢
    rw [hmines2]
    exact mem_unionC_left hx
  have hsafesup : st.safes.toFinset ⊆ (whileBody st).safes.toFinset := by
    intro x hx
    rw [List.mem_toFinset] at hx ⊢
    rw [hsafes2]
    exact mem_unionC_left hx
  have hAsub : supp (whileBody st) \ (whileBody st).mines.toFinset ⊆
      supp st \ st.mines.toFinset := Finset.sdiff_subset_sdiff hsupp2 hminesup
  have hBsub : supp (whileBody st) \ (whileBody st).safes.toFinset ⊆
      supp st \ st.safes.toFinset := Finset.sdiff_subset_sdiff hsupp2 hsafesup
  rcases hcond with hcond | hcond
  · -- a genuinely new safe cell was marked
    rw [hsafes2] at hcond
    obtain ⟨c, hcks, hcnot⟩ := unionC_length_ne ks s1.safes hcond
    have hcsupp : c ∈ supp s1 := by
      rcases mem_collected_fold s1.knowledge [] c hcks with h | ⟨id, hid, hg⟩
      · cases h
      · exact mem_supp.mpr ⟨id, hid, known_safes_subset_cells _ c hg⟩
    have hcgone : c ∉ supp (whileBody st) := by
      rw [hbody]
      exact not_mem_supp_fold_mark_safe ks stM c hcks
    have hstrict : (supp (whileBody st) \ (whileBody st).safes.toFinset) ⊂
        supp st \ st.safes.toFinset := by
      rw [Finset.ssubset_iff_of_subset hBsub]
      refine ⟨c, ?_, fun hc => hcgone (Finset.mem_sdiff.mp hc).1⟩
      rw [Finset.mem_sdiff]
      exact ⟨supp_clean_subset st hcsupp, by rwa [List.mem_toFinset]⟩
    have h1 := Finset.card_lt_card hstrict
    have h2 := Finset.card_le_card hAsub
    unfold suppW
    omega
  · -- a genuinely new mine cell was marked
    rw [hmines2] at hcond
    obtain ⟨c, hckm, hcnot⟩ := unionC_length_ne km s1.mines hcond
    have hcsupp : c ∈ supp s1 := by
      rcases mem_collected_fold s1.knowledge [] c hckm with h | ⟨id, hid, hg⟩
      · cases h
      · exact mem_supp.mpr ⟨id, hid, known_mines_subset_cells _ c hg⟩
    have hcgone : c ∉ supp (whileBody st) := by
      rw [hbody]
      intro hmem
      exact not_mem_supp_fold_mark_mine km s1 c hckm
        (supp_fold_mark_safe_subset ks stM hmem)
    have hstrict : (supp (whileBody st) \ (whileBody st).mines.toFinset) ⊂
        supp st \ st.mines.toFinset := by
      rw [Finset.ssubset_iff_of_subset hAsub]
      refine ⟨c, ?_, fun hc => hcgone (Finset.mem_sdiff.mp hc).1⟩
      rw [Finset.mem_sdiff]
      exact ⟨supp_clean_subset st hcsupp, by rwa [List.mem_toFinset]⟩
    have h1 := Finset.card_lt_card hstrict
    have h2 := Finset.card_le_card hBsub
    unfold suppW
    omega

/-- The `while` loop of the propagation always terminates: with fuel above
`suppW st` it reaches a stable state, never increasing `mu`, and a sentence
with a non-empty cell set either stays non-empty or its emptying strictly
decreased `mu`. -/
lemma reason_while_total :
    ∀ (n : Nat) (st : MinesweeperAI), suppW st ≤ n →
      ∃ st', (∀ f, n < f → reason_while f st = some st') ∧ mu st' ≤ mu st ∧
        (∀ id, (st.lookupS id).cells ≠ [] →
          ((st'.lookupS id).cells ≠ [] ∨ mu st' < mu st)) ∧
        st'.knowledge.length ≤ st.knowledge.length := by
  intro n
  induction n with
  | zero =>
    intro st h0
    by_cases hcond : (whileBody st).safes.length ≠ st.clean_up_empty_knowledge.safes.length ∨
        (whileBody st).mines.length ≠ st.clean_up_empty_knowledge.mines.length
    · exact absurd (lt_of_lt_of_le (whileBody_cond_W st hcond) h0) (Nat.not_lt_zero _)
    · refine ⟨whileBody st, ?_, whileBody_mu_le st, whileBody_pres st,
        whileBody_knowledge_len st⟩
      intro f hf
      cases f with
      | zero => omega
      | succ f' => rw [reason_while_succ, if_neg hcond]
  | succ n ih =>
    intro st hn
    by_cases hcond : (whileBody st).safes.length ≠ st.clean_up_empty_knowledge.safes.length ∨
        (whileBody st).mines.length ≠ st.clean_up_empty_knowledge.mines.length
    · have hW := whileBody_cond_W st hcond
      obtain ⟨st', hrun, hmu, hpres, hlen⟩ := ih (whileBody st) (by omega)
      refine ⟨st', ?_, hmu.trans (whileBody_mu_le st), ?_,
        hlen.trans (whileBody_knowledge_len st)⟩
      · intro f hf
        cases f with
        | zero => omega
        | succ f' =>
          rw [reason_while_succ, if_pos hcond]
          exact hrun f' (by omega)
      · intro id hid
        rcases whileBody_pres st id hid with h1 | h1
        · rcases hpres id h1 with h2 | h2
          · exact Or.inl h2
          · exact Or.inr (lt_of_lt_of_le h2 (whileBody_mu_le st))
        · exact Or.inr (lt_of_le_of_lt hmu h1)
    · refine ⟨whileBody st, ?_, whileBody_mu_le st, whileBody_pres st,
        whileBody_knowledge_len st⟩
      intro f hf
      cases f with
      | zero => omega
      | succ f' => rw [reason_while_succ, if_neg hcond]

lemma lookupS_update_const (st : MinesweeperAI) (eid : Nat) (e' : Sentence)
    (hne : (st.lookupS eid).cells ≠ []) (id : Nat) :
    ({ st with heap := updateHeap st.heap eid (fun _ => e') } : MinesweeperAI).lookupS id =
      if id = eid then e' else st.lookupS id := by
  by_cases hid : id = eid
  · subst hid
    rw [if_pos rfl, lookupS_eq_lookupH]
    show lookupH (updateHeap st.heap id (fun _ => e')) id = e'
    unfold lookupH
    rw [find?_updateHeap]
    cases hfind : st.heap.find? (fun p => p.1 == id) with
    | none =>
      exfalso
      apply hne
      rw [lookupS_eq_lookupH]
      unfold lookupH
      rw [hfind]
    | some p =>
      have hp1 : p.1 = id := by simpa using List.find?_some hfind
      show (if p.1 = id then (p.1, e') else p).2 = e'
      rw [if_pos hp1]
  · rw [if_neg hid, lookupS_eq_lookupH, lookupS_eq_lookupH]
    show lookupH (updateHeap st.heap eid (fun _ => e')) id = lookupH st.heap id
    unfold lookupH
    rw [find?_updateHeap]
    cases hfind : st.heap.find? (fun p => p.1 == id) with
    | none => rfl
    | some p =>
      have hp1 : p.1 = id := by simpa using List.find?_some hfind
      show (if p.1 = eid then (p.1, e') else p).2 = p.2
      rw [if_neg (by rw [hp1]; exact hid)]

lemma mu_update_le (st : MinesweeperAI) (eid : Nat) (e' : Sentence)
    (hne : (st.lookupS eid).cells ≠ [])
    (hlen : e'.cells.length ≤ (st.lookupS eid).cells.length) :
    mu ({ st with heap := updateHeap st.heap eid (fun _ => e') } : MinesweeperAI) ≤ mu st := by
  unfold mu
  refine nat_sum_le_sum (fun id _ => ?_)
  rw [lookupS_update_const st eid e' hne]
  split
  · rename_i h
    rw [h]
    exact hlen
  · exact Nat.le_refl _

lemma mu_update_lt (st : MinesweeperAI) (eid : Nat) (e' : Sentence)
    (hne : (st.lookupS eid).cells ≠ []) (heid : eid ∈ st.knowledge)
    (hlen : e'.cells.length < (st.lookupS eid).cells.length) :
    mu ({ st with heap := updateHeap st.heap eid (fun _ => e') } : MinesweeperAI) < mu st := by
  unfold mu
  refine nat_sum_lt_sum _ _ (fun id _ => ?_) ⟨eid, heid, ?_⟩
  · rw [lookupS_update_const st eid e' hne]
    split
    · rename_i h
      rw [h]
      exact le_of_lt hlen
    · exact Nat.le_refl _
  · rw [lookupS_update_const st eid e' hne, if_pos rfl]
    exact hlen

lemma length_filter_lt {l : List Cell} {p : Cell → Bool} {x : Cell} (hx : x ∈ l)
    (hpx : p x = false) : (l.filter p).length < l.length := by
  induction l with
  | nil => cases hx
  | cons a l ih =>
    rw [List.filter_cons]
    rcases List.mem_cons.mp hx with rfl | hx
    · rw [hpx]
      have := List.length_filter_le p l
      simp only [Bool.false_eq_true, if_false, List.length_cons]
      omega
    · cases hpa : p a
      · have := List.length_filter_le p l
        simp only [Bool.false_eq_true, if_false, List.length_cons]
        omega
      · have := ih hx
        simp only [if_true, List.length_cons]
        omega

lemma filter_not_mem_nil (l : List Cell) :
    l.filter (fun c => decide (c ∉ ([] : List Cell))) = l :=
  List.filter_eq_self.mpr (fun a _ => by simp)

lemma reason_while_shrink :
    ∀ (f : Nat) (st st' : MinesweeperAI), reason_while f st = some st' →
      mu st' ≤ mu st ∧ st'.knowledge.length ≤ st.knowledge.length := by
  intro f
  induction f with
  | zero => intro st st' h; simp [reason_while] at h
  | succ f ih =>
    intro st st' h
    rw [reason_while_succ] at h
    split at h
    · have h2 := ih _ _ h
      exact ⟨h2.1.trans (whileBody_mu_le st), h2.2.trans (whileBody_knowledge_len st)⟩
    · cases h
      exact ⟨whileBody_mu_le st, whileBody_knowledge_len st⟩

lemma reason_while_mono :
    ∀ (f g : Nat) (st st' : MinesweeperAI), f ≤ g → reason_while f st = some st' →
      reason_while g st = some st' := by
  intro f
  induction f with
  | zero => intro g st st' _ h; simp [reason_while] at h
  | succ f ih =>
    intro g st st' hfg h
    cases g with
    | zero => omega
    | succ g' =>
      rw [reason_while_succ] at h ⊢
      split at h
      · rename_i hcond
        rw [if_pos hcond]
        exact ih g' _ _ (by omega) h
      · rename_i hcond
        rw [if_neg hcond]
        exact h

lemma reasonAux_shrink :
    ∀ (fuel : Nat) (call : ReasonCall) (st' : MinesweeperAI),
      reasonAux fuel call = some st' →
      mu st' ≤ mu call.state ∧ st'.knowledge.length ≤ call.state.knowledge.length := by
  intro fuel
  induction fuel with
  | zero => intro call st' h; simp [reasonAux] at h
  | succ f ih =>
    intro call st' h
    cases call with
    | main st nkid =>
      simp only [reasonAux] at h
      split at h
      · cases h; exact ⟨Nat.le_refl _, Nat.le_refl _⟩
      · split at h
        · exact absurd h (by simp)
        · rename_i st1 hwhile
          have h1 := reason_while_shrink _ _ _ hwhile
          have h2 := ih _ _ h
          exact ⟨h2.1.trans h1.1, h2.2.trans h1.2⟩
    | scan st nkid i =>
      simp only [reasonAux] at h
      split at h
      · cases h; exact ⟨Nat.le_refl _, Nat.le_refl _⟩
      · rename_i eid heid
        split at h
        · have h2 := ih _ _ h
          refine ⟨h2.1.trans (le_of_eq (mu_clean_eq st)), h2.2.trans ?_⟩
          exact List.length_filter_le _ _
        · rename_i hne
          split at h
          · split at h
            · exact absurd h (by simp)
            · rename_i st'' hmain
              have hupd : mu ({ st with heap := updateHeap st.heap eid (fun _ =>
                  ⟨(st.lookupS eid).cells.filter
                    (fun c => decide (c ∉ (st.lookupS nkid).cells)),
                    (st.lookupS eid).count - (st.lookupS nkid).count⟩) } :
                  MinesweeperAI) ≤ mu st :=
                mu_update_le st eid _ hne (List.length_filter_le _ _)
              have h1 := ih _ _ hmain
              have h2 := ih _ _ h
              exact ⟨h2.1.trans (h1.1.trans hupd), h2.2.trans h1.2⟩
          · have h2 := ih (.scan st nkid (i + 1)) _ h
            exact h2

lemma reasonAux_mono :
    ∀ (f g : Nat) (call : ReasonCall) (st' : MinesweeperAI), f ≤ g →
      reasonAux f call = some st' → reasonAux g call = some st' := by
  intro f
  induction f with
  | zero => intro g call st' _ h; simp [reasonAux] at h
  | succ f ih =>
    intro g call st' hfg h
    cases g with
    | zero => omega
    | succ g' =>
      cases call with
      | main st nkid =>
        simp only [reasonAux] at h ⊢
        split at h
        · rename_i hempty
          rw [if_pos hempty]
          exact h
        · rename_i hempty
          rw [if_neg hempty]
          split at h
          · exact absurd h (by simp)
          · rename_i st1 hwhile
            rw [reason_while_mono (f + 1) (g' + 1) st st1 (by omega) hwhile]
            exact ih g' _ _ (by omega) h
      | scan st nkid i =>
        simp only [reasonAux] at h ⊢
        split at h
        · exact h
        · split at h
          · rename_i hempty
            rw [if_pos hempty]
            exact ih g' _ _ (by omega) h
          · rename_i hempty
            rw [if_neg hempty]
            split at h
            · rename_i hcond
              rw [if_pos hcond]
              split at h
              · exact absurd h (by simp)
              · rename_i st'' hmain
                rw [ih g' _ _ (by omega) hmain]
                exact ih g' _ _ (by omega) h
            · rename_i hcond
              rw [if_neg hcond]
              exact ih g' _ _ (by omega) h

/-- Master totality lemma: with enough fuel, every `reason_about_new_knowledge`
call (`main`) and every subset-resolution scan (`scan`) completes, never
increasing `mu`.  Strong induction on a bound `n` for `mu`: every recursive
`main` invocation happens at a strictly smaller `mu`. -/
lemma reason_total (n : Nat) :
    (∀ (d : Nat) (st : MinesweeperAI) (nkid i : Nat),
      st.knowledge.length - i ≤ d → mu st ≤ n →
      ((st.lookupS nkid).cells ≠ [] ∨ mu st < n) →
      ∃ fuel st', reasonAux fuel (.scan st nkid i) = some st' ∧ mu st' ≤ mu st) ∧
    (∀ (st : MinesweeperAI) (nkid : Nat), mu st ≤ n →
      ∃ fuel st', reasonAux fuel (.main st nkid) = some st' ∧ mu st' ≤ mu st) := by
  induction n using Nat.strong_induction_on with
  | _ n IH =>
    have Hscan : ∀ (d : Nat) (st : MinesweeperAI) (nkid i : Nat),
        st.knowledge.length - i ≤ d → mu st ≤ n →
        ((st.lookupS nkid).cells ≠ [] ∨ mu st < n) →
        ∃ fuel st', reasonAux fuel (.scan st nkid i) = some st' ∧ mu st' ≤ mu st := by
      intro d
      induction d with
      | zero =>
        intro st nkid i hd _ _
        refine ⟨1, st, ?_, Nat.le_refl _⟩
        have hnone : st.knowledge[i]? = none := List.getElem?_eq_none (by omega)
        simp only [reasonAux, hnone]
      | succ d ihd =>
        intro st nkid i hd hmu hdisj
        cases hi : st.knowledge[i]? with
        | none =>
          refine ⟨1, st, ?_, Nat.le_refl _⟩
          simp only [reasonAux, hi]
        | some eid =>
          by_cases hecells : (st.lookupS eid).cells = []
          · have hlen1 : st.clean_up_empty_knowledge.knowledge.length ≤ st.knowledge.length :=
              List.length_filter_le _ _
            obtain ⟨f1, st', hrun, hmu1⟩ := ihd st.clean_up_empty_knowledge nkid (i + 1)
              (by omega) (by rw [mu_clean_eq]; exact hmu)
              (by rw [lookupS_clean, mu_clean_eq]; exact hdisj)
            rw [mu_clean_eq] at hmu1
            refine ⟨f1 + 1, st', ?_, hmu1⟩
            simp only [reasonAux, hi]
            rw [if_pos hecells]
            exact hrun
          · by_cases hcond : (subsetC (st.lookupS nkid).cells (st.lookupS eid).cells &&
                ! setEqC (st.lookupS eid).cells (st.lookupS nkid).cells) = true
            · have heid : eid ∈ st.knowledge := List.getElem?_mem hi
              set st1 : MinesweeperAI := { st with heap := updateHeap st.heap eid (fun _ =>
                  ⟨(st.lookupS eid).cells.filter
                    (fun c => decide (c ∉ (st.lookupS nkid).cells)),
                    (st.lookupS eid).count - (st.lookupS nkid).count⟩) } with hst1
              have hmu1 : mu st1 ≤ mu st := by
                rw [hst1]
                exact mu_update_le st eid _ hecells (List.length_filter_le _ _)
              have hlt1 : mu st1 < n := by
                rcases hdisj with hne | hlt
                · obtain ⟨x, hx⟩ := List.exists_mem_of_ne_nil _ hne
                  have hsub := ((Bool.and_eq_true _ _).mp hcond).1
                  have hxe : x ∈ (st.lookupS eid).cells := by
                    have := List.all_eq_true.mp hsub x hx
                    simpa using this
                  have hstrict : mu st1 < mu st := by
                    rw [hst1]
                    refine mu_update_lt st eid _ hecells heid ?_
                    exact length_filter_lt hxe (by simp [hx])
                  omega
                · omega
              have hn1 : 0 < n := by omega
              obtain ⟨f2, stM, hrunM, hmuM⟩ := (IH (n - 1) (by omega)).2 st1 eid (by omega)
              have hlenM : stM.knowledge.length ≤ st1.knowledge.length :=
                (reasonAux_shrink f2 _ _ hrunM).2
              have hlen1 : st1.knowledge.length = st.knowledge.length := by
                rw [hst1]
              obtain ⟨f3, st', hrun3, hmu3⟩ := ihd stM nkid (i + 1)
                (by omega) (by omega) (Or.inr (by omega))
              refine ⟨max f2 f3 + 1, st', ?_, by omega⟩
              simp only [reasonAux, hi]
              rw [if_neg hecells, if_pos hcond, ← hst1]
              rw [reasonAux_mono f2 (max f2 f3) _ _ (le_max_left _ _) hrunM]
              exact reasonAux_mono f3 (max f2 f3) _ _ (le_max_right _ _) hrun3
            · obtain ⟨f1, st', hrun, hmu1⟩ := ihd st nkid (i + 1) (by omega) hmu hdisj
              refine ⟨f1 + 1, st', ?_, hmu1⟩
              simp only [reasonAux, hi]
              rw [if_neg hecells, if_neg hcond]
              exact hrun
    have Hmain : ∀ (st : MinesweeperAI) (nkid : Nat), mu st ≤ n →
        ∃ fuel st', reasonAux fuel (.main st nkid) = some st' ∧ mu st' ≤ mu st := by
      intro st nkid hmu
      by_cases hnk : (st.lookupS nkid).cells = []
      · refine ⟨1, st, ?_, Nat.le_refl _⟩
        simp only [reasonAux]
        rw [if_pos hnk]
      · obtain ⟨stW, hrunW, hmuW, hpresW, hlenW⟩ :=
          reason_while_total (suppW st) st (Nat.le_refl _)
        have hdisjW : (stW.lookupS nkid).cells ≠ [] ∨ mu stW < n := by
          rcases hpresW nkid hnk with h | h
          · exact Or.inl h
          · exact Or.inr (by omega)
        obtain ⟨f3, st', hrun3, hmu3⟩ :=
          Hscan stW.knowledge.length stW nkid 0 (by omega) (by omega) hdisjW
        refine ⟨max (suppW st) f3 + 1, st', ?_, by omega⟩
        simp only [reasonAux]
        rw [if_neg hnk, hrunW (max (suppW st) f3 + 1) (by omega)]
        exact reasonAux_mono f3 (max (suppW st) f3) _ _ (le_max_right _ _) hrun3
    exact ⟨Hscan, Hmain⟩

lemma reason_about_new_knowledge_terminates (st : MinesweeperAI) (nkid : Nat) :
    ∃ fuel st', st.reason_about_new_knowledge fuel nkid = some st' := by
  obtain ⟨fuel, st', h, -⟩ := (reason_total (mu st)).2 st nkid (Nat.le_refl _)
  exact ⟨fuel, st', h⟩

/-- C7: for every knowledge-base state and every observation, the propagation
fixed point run inside `add_knowledge` — including the recursive re-invocation
of `reason_about_new_knowledge` on constraints modified by subset resolution —
terminates: some finite fuel suffices for the call to return.  (With
`reasonAux_mono`, any larger fuel returns the same state.) -/
theorem observe_propagation_terminates (st : MinesweeperAI) (cell : Cell) (count : Int) :
    ∃ fuel st', st.add_knowledge fuel cell count = some st' := by
  simp only [MinesweeperAI.add_knowledge]
  exact reason_about_new_knowledge_terminates _ _
